import Mathlib

/-!
Verification development for the libosmium PBF input format
(`include/osmium/io/detail/pbf_input_format.hpp`) and the relation
collector (`include/osmium/relations/collector.hpp`).

The C++ sources are shallowly embedded: protobuf messages become Lean
structures with `List` fields (repeated fields) and `Option` fields
(optional fields, mirroring the generated `has_*` accessors); machine
integers become `Int` (no overflow is exercised by the properties below);
C++ exceptions and aborts become an explicit `Except` error type.
Truncating C++ integer division is `Int.tdiv`.
-/

namespace Osmium

/-- Error outcomes of the embedded decoder.

`corrupt msg` models a thrown `osmium::pbf_error(msg)` (the spec's
Corrupt/Truncated/Unsupported taxonomy is carried in the message string,
exactly as in the source, which has a single exception type).
`assertFail` models a C `assert(...)` violation (program abort in a
debug build; the source uses `<cassert>` asserts, not exceptions).
`checkFail` models a protobuf runtime check failure, e.g. out-of-range
access to a repeated field or to the string table.
`badArrayNewLength` models the `std::bad_array_new_length` exception a
C++11 `new unsigned char[size]` expression throws for a negative size. -/
inductive PbfError where
  | corrupt (msg : String)
  | assertFail
  | checkFail
  | badArrayNewLength
deriving DecidableEq

/-- Modelled from the spec (§6.1): `OSMPBF::max_blob_header_size` = 64 KiB.
The constant lives in the external osmpbf package, not under src/. -/
def max_blob_header_size : Int := 64 * 1024

/-- Modelled from the spec (§6.1): `OSMPBF::max_uncompressed_blob_size` =
32 MiB. The constant lives in the external osmpbf package, not under src/. -/
def max_uncompressed_blob_size : Int := 32 * 1024 * 1024

/-- Modelled from the spec (§6.2): `OSMPBF::lonlat_resolution` = 10^9
nanodegrees per degree (external osmpbf package). -/
def lonlat_resolution : Int := 1000 * 1000 * 1000

/-- Modelled from the spec (§6.2): `osmium::Location::coordinate_precision`
= 10^7 (fixed-point scale of `osmium/osm/location.hpp`, not under src/). -/
def coordinate_precision : Int := 10000000

/-- Access to a protobuf repeated field at an index. Out-of-range access
trips a protobuf runtime check (abort), modelled as `checkFail`. -/
def pbGet {α : Type} (l : List α) (i : Nat) : Except PbfError α :=
  match l.get? i with
  | some a => .ok a
  | none => .error .checkFail

/-- Error propagation: a C++ exception (or abort) unwinds past the rest
of the computation. All embedded functions chain through this
combinator. -/
def ebind {α β : Type} (x : Except PbfError α) (f : α → Except PbfError β) :
    Except PbfError β :=
  match x with
  | .error e => .error e
  | .ok a => f a

/-- The block-local string table: `m_stringtable->s(i)`. The generated
accessor takes an `int` index; a negative or out-of-range index trips a
protobuf runtime check, modelled as `checkFail`. -/
def stringtable_s (st : List String) (i : Int) : Except PbfError String :=
  if i < 0 then .error .checkFail else pbGet st i.toNat

/-- OSMPBF `Info` message (optional metadata of a node/way/relation).
`visible` carries `has_visible` as an `Option`. -/
structure Info where
  version : Int := -1
  timestamp : Int := 0
  changeset : Int := 0
  uid : Int := 0
  user_sid : Int := 0
  visible : Option Bool := none
deriving DecidableEq

/-- OSMPBF `Node` message (non-dense encoding). -/
structure PbfNode where
  id : Int
  keys : List Int := []
  vals : List Int := []
  info : Option Info := none
  lat : Int := 0
  lon : Int := 0
deriving DecidableEq

/-- OSMPBF `Way` message; `refs` is the delta-encoded node reference array. -/
structure PbfWay where
  id : Int
  keys : List Int := []
  vals : List Int := []
  info : Option Info := none
  refs : List Int := []
deriving DecidableEq

/-- OSMPBF `Relation` message; `memids` is delta-encoded, `types` holds the
wire enum {0,1,2} and `roles_sid` indexes the string table. -/
structure PbfRelation where
  id : Int
  keys : List Int := []
  vals : List Int := []
  info : Option Info := none
  roles_sid : List Int := []
  memids : List Int := []
  types : List Int := []
deriving DecidableEq

/-- OSMPBF `DenseInfo` message: parallel delta-encoded metadata streams
(`version` is absolute, not delta). -/
structure DenseInfo where
  version : List Int := []
  timestamp : List Int := []
  changeset : List Int := []
  uid : List Int := []
  user_sid : List Int := []
  visible : List Bool := []
deriving DecidableEq

/-- OSMPBF `DenseNodes` message: parallel delta-encoded `id`/`lat`/`lon`
streams and the flat 0-terminated `keys_vals` tag stream. -/
structure DenseNodes where
  id : List Int := []
  denseinfo : Option DenseInfo := none
  lat : List Int := []
  lon : List Int := []
  keys_vals : List Int := []
deriving DecidableEq

/-- OSMPBF `PrimitiveGroup` message. `dense` carries `has_dense`. -/
structure PrimitiveGroup where
  nodes : List PbfNode := []
  dense : Option DenseNodes := none
  ways : List PbfWay := []
  relations : List PbfRelation := []
deriving DecidableEq

/-- OSMPBF `PrimitiveBlock` message with its wire defaults
(`granularity` 100, `date_granularity` 1000, offsets 0). -/
structure PrimitiveBlock where
  stringtable : List String := []
  primitivegroup : List PrimitiveGroup := []
  granularity : Int := 100
  lat_offset : Int := 0
  lon_offset : Int := 0
  date_granularity : Int := 1000
deriving DecidableEq

/-- Which OSM entity kinds the caller asked for
(`osmium::osm_entity_bits::type` filter mask). -/
structure EntityBits where
  node : Bool := true
  way : Bool := true
  relation : Bool := true
deriving DecidableEq

/-- Decoded object attributes produced by
`PBFPrimitiveBlockParser::parse_attributes`. Modelled from the spec for the
parts of the entity model outside src/: the timestamp field stores the
value passed to `set_timestamp` (an `osmium::Timestamp`, i.e. seconds since
the epoch), `uid` stores the signed wire value (negative means anonymous),
and `visible` defaults to `true`. -/
structure Attrs where
  id : Int := 0
  version : Int := 0
  changeset : Int := 0
  timestamp : Int := 0
  uid : Int := 0
  visible : Bool := true
  user : String := ""
deriving DecidableEq

/-- Decoded node: attributes plus an optional fixed-point location
(`none` models the undefined-location sentinel) and the tag list. -/
structure DNode where
  attrs : Attrs
  location : Option (Int × Int) := none
  tags : List (String × String) := []
deriving DecidableEq

/-- Decoded way: attributes, reconstructed node references, tags. -/
structure DWay where
  attrs : Attrs
  refs : List Int := []
  tags : List (String × String) := []
deriving DecidableEq

/-- Decoded relation member `(type, ref, role)`; `typ` keeps the wire enum
value (the `osmpbf_membertype_to_item_type` mapping lives in
`osmium/io/detail/pbf.hpp`, outside src/, and is a bijection on {0,1,2}). -/
structure DMember where
  typ : Int
  ref : Int
  role : String
deriving DecidableEq

/-- Decoded relation: attributes, member list, tags. -/
structure DRelation where
  attrs : Attrs
  members : List DMember := []
  tags : List (String × String) := []
deriving DecidableEq

/-- One entity in the output buffer of a decoded `PrimitiveBlock`. -/
inductive OsmEntity where
  | node (n : DNode)
  | way (w : DWay)
  | relation (r : DRelation)
deriving DecidableEq

/-- The parser's `m_date_factor`: the source computes
`pbf_primitive_block.date_granularity() / 1000` with truncating C++
integer division (pbf_input_format.hpp line 142). -/
def date_factor_of (blk : PrimitiveBlock) : Int :=
  Int.tdiv blk.date_granularity 1000

/-- Fixed-point coordinate conversion used for both dense and non-dense
nodes: `(raw * granularity + offset) / (lonlat_resolution /
coordinate_precision)` with truncating C++ integer division
(pbf_input_format.hpp lines 194-195 and 344-345). -/
def coord_conv (granularity offset raw : Int) : Int :=
  Int.tdiv (raw * granularity + offset) (Int.tdiv lonlat_resolution coordinate_precision)

/-- Embeds `PBFPrimitiveBlockParser::parse_attributes` (lines 166-184):
with `info` present it sets version/changeset/timestamp/uid, visibility
only when `has_visible`, and the user name from the string table;
without `info` the user is the empty string. The timestamp stored is
`info.timestamp() * m_date_factor`. -/
def parse_attributes (st : List String) (dateFactor : Int) (id : Int)
    (info : Option Info) : Except PbfError Attrs :=
  match info with
  | some inf =>
    ebind (stringtable_s st inf.user_sid) fun user =>
      .ok { id := id
            version := inf.version
            changeset := inf.changeset
            timestamp := inf.timestamp * dateFactor
            uid := inf.uid
            visible := inf.visible.getD true
            user := user }
  | none => .ok { id := id, user := "" }

/-- Embeds the parallel `keys[]`/`vals[]` tag loop shared by the node, way
and relation group parsers: `add_tag(s(keys(tag)), s(vals(tag)))` for each
index of `keys`; a `vals` array shorter than `keys` trips the protobuf
range check. -/
def parse_tags (st : List String) : List Int → List Int → Except PbfError (List (String × String))
  | [], _ => .ok []
  | _ :: _, [] => .error .checkFail
  | k :: ks, v :: vs =>
    ebind (stringtable_s st k) fun key =>
    ebind (stringtable_s st v) fun val =>
    ebind (parse_tags st ks vs) fun rest =>
    .ok ((key, val) :: rest)

/-- Delta decoding by prefix sum: the embedded form of the accumulator
loops `ref += pbf_way.refs(n)` (line 220) and `ref += pbf_relation.memids(n)`
(line 247), starting from accumulator `acc`. -/
def delta_decode (acc : Int) : List Int → List Int
  | [] => []
  | d :: ds => (acc + d) :: delta_decode (acc + d) ds

/-- Embeds one iteration sequence of `parse_node_group` (lines 186-208) for
a single `OSMPBF::Node`: attributes, then the location (only for visible
nodes), then tags. -/
def parse_node (st : List String) (dateFactor granularity lonOfs latOfs : Int)
    (pn : PbfNode) : Except PbfError DNode :=
  ebind (parse_attributes st dateFactor pn.id pn.info) fun a =>
    let loc := if a.visible then
        some (coord_conv granularity lonOfs pn.lon, coord_conv granularity latOfs pn.lat)
      else none
    ebind (parse_tags st pn.keys pn.vals) fun tags =>
    .ok { attrs := a, location := loc, tags := tags }

/-- Embeds one iteration of `parse_way_group` (lines 210-235) for a single
`OSMPBF::Way`: attributes, delta-decoded node refs, tags. -/
def parse_way (st : List String) (dateFactor : Int) (pw : PbfWay) :
    Except PbfError DWay :=
  ebind (parse_attributes st dateFactor pw.id pw.info) fun a =>
    let refs := delta_decode 0 pw.refs
    ebind (parse_tags st pw.keys pw.vals) fun tags =>
    .ok { attrs := a, refs := refs, tags := tags }

/-- Embeds the member loop of `parse_relation_group` (lines 243-250): the
loop runs over `types`, indexing `memids` (delta-decoded into `ref`) and
`roles_sid` in parallel; a `memids` or `roles_sid` array shorter than
`types` trips the protobuf range check. -/
def parse_members (st : List String) (acc : Int) :
    List Int → List Int → List Int → Except PbfError (List DMember)
  | [], _, _ => .ok []
  | _ :: _, [], _ => .error .checkFail
  | _ :: _, _ :: _, [] => .error .checkFail
  | t :: ts, mid :: mids, rs :: roles =>
    ebind (stringtable_s st rs) fun role =>
    ebind (parse_members st (acc + mid) ts mids roles) fun rest =>
    .ok ({ typ := t, ref := acc + mid, role := role } :: rest)

/-- Embeds one iteration of `parse_relation_group` (lines 237-262) for a
single `OSMPBF::Relation`. -/
def parse_relation (st : List String) (dateFactor : Int) (pr : PbfRelation) :
    Except PbfError DRelation :=
  ebind (parse_attributes st dateFactor pr.id pr.info) fun a =>
    ebind (parse_members st 0 pr.types pr.memids pr.roles_sid) fun members =>
    ebind (parse_tags st pr.keys pr.vals) fun tags =>
    .ok { attrs := a, members := members, tags := tags }

/-- Embeds `PBFPrimitiveBlockParser::add_tags` (lines 264-289). The integer
cursor `n` into `keys_vals` is represented by the remaining suffix of the
stream; the function returns the decoded tags of one node together with
the suffix left for the next node. Reading a value position past the end
of the stream trips the protobuf range check. -/
def add_tags (st : List String) : List Int → Except PbfError (List (String × String) × List Int)
  | [] => .ok ([], [])
  | k :: rest =>
    if k = 0 then .ok ([], rest)
    else
      match rest with
      | [] => .error .checkFail
      | v :: rest2 =>
        ebind (stringtable_s st k) fun key =>
        ebind (stringtable_s st v) fun val =>
        ebind (add_tags st rest2) fun tr =>
        .ok ((key, val) :: tr.1, tr.2)

/-- The running accumulators of `parse_dense_node_group` (lines 292-298),
all starting at 0. -/
structure DenseAcc where
  id : Int := 0
  lat : Int := 0
  lon : Int := 0
  uid : Int := 0
  user_sid : Int := 0
  changeset : Int := 0
  timestamp : Int := 0
deriving DecidableEq

/-- The `visible` read of the dense loop (lines 304, 315-317): `true`
unless the `visible` array is non-empty, in which case entry `i` is read
(with the protobuf range check). -/
def dense_visible (di : DenseInfo) (i : Nat) : Except PbfError Bool :=
  if 0 < di.visible.length then pbGet di.visible i else .ok true

/-- The four accumulator asserts of the dense loop (lines 318-321), in
source order: `changeset >= 0`, `timestamp >= 0`, `uid >= -1`,
`user_sid >= 0`; a violated `assert` aborts. -/
def dense_asserts (acc2 : DenseAcc) : Except PbfError Unit :=
  if acc2.changeset < 0 then .error .assertFail
  else if acc2.timestamp < 0 then .error .assertFail
  else if acc2.uid < -1 then .error .assertFail
  else if acc2.user_sid < 0 then .error .assertFail
  else .ok ()

/-- The version check of the dense loop (line 331): `assert(v > 0)`. -/
def version_check (v : Int) : Except PbfError Unit :=
  if v ≤ 0 then .error .assertFail else .ok ()

/-- Embeds one iteration `i` of the loop in `parse_dense_node_group`
(lines 303-350), in source order: advance id/lat/lon accumulators; with
`denseinfo` advance changeset/timestamp/uid/user_sid, read `visible`,
run the four accumulator asserts, read `version` and assert it positive,
look up the user string; set the location only for visible nodes; consume
this node's tags from the shared `keys_vals` cursor. Returns the new
accumulators, the remaining tag stream and the decoded node. -/
def dense_step (st : List String) (dateFactor granularity lonOfs latOfs : Int)
    (dense : DenseNodes) (i : Nat) (acc : DenseAcc) (kv : List Int) :
    Except PbfError (DenseAcc × List Int × DNode) :=
  ebind (pbGet dense.id i) fun dId =>
  ebind (pbGet dense.lat i) fun dLat =>
  ebind (pbGet dense.lon i) fun dLon =>
  let acc1 : DenseAcc := { acc with id := acc.id + dId, lat := acc.lat + dLat, lon := acc.lon + dLon }
  match dense.denseinfo with
  | some di =>
    ebind (pbGet di.changeset i) fun dCs =>
    ebind (pbGet di.timestamp i) fun dTs =>
    ebind (pbGet di.uid i) fun dUid =>
    ebind (pbGet di.user_sid i) fun dSid =>
    let acc2 : DenseAcc := { acc1 with changeset := acc1.changeset + dCs,
                                       timestamp := acc1.timestamp + dTs,
                                       uid := acc1.uid + dUid,
                                       user_sid := acc1.user_sid + dSid }
    ebind (dense_visible di i) fun visible =>
    ebind (dense_asserts acc2) fun _ =>
    ebind (pbGet di.version i) fun v =>
    ebind (version_check v) fun _ =>
    ebind (stringtable_s st acc2.user_sid) fun user =>
    let loc := if visible then
        some (coord_conv granularity lonOfs acc2.lon, coord_conv granularity latOfs acc2.lat)
      else none
    ebind (add_tags st kv) fun tr =>
      .ok (acc2, tr.2,
        { attrs := { id := acc2.id, version := v, changeset := acc2.changeset,
                     timestamp := acc2.timestamp * dateFactor, uid := acc2.uid,
                     visible := visible, user := user },
          location := loc, tags := tr.1 })
  | none =>
    let loc := some (coord_conv granularity lonOfs acc1.lon, coord_conv granularity latOfs acc1.lat)
    ebind (add_tags st kv) fun tr =>
      .ok (acc1, tr.2,
        { attrs := { id := acc1.id, user := "" }, location := loc, tags := tr.1 })

/-- Runs `n` remaining iterations of the `parse_dense_node_group` loop
starting at index `i` with accumulators `acc` and tag-stream suffix `kv`,
collecting the decoded nodes in emission order. -/
def parse_dense_aux (st : List String) (dateFactor granularity lonOfs latOfs : Int)
    (dense : DenseNodes) : Nat → Nat → DenseAcc → List Int → Except PbfError (List DNode)
  | 0, _, _, _ => .ok []
  | n + 1, i, acc, kv =>
    ebind (dense_step st dateFactor granularity lonOfs latOfs dense i acc kv) fun r =>
    ebind (parse_dense_aux st dateFactor granularity lonOfs latOfs dense n (i + 1) r.1 r.2.1) fun rest =>
    .ok (r.2.2 :: rest)

/-- Embeds `PBFPrimitiveBlockParser::parse_dense_node_group` (lines
291-351): loop over `dense.id_size()` entries with all accumulators and
the tag cursor starting at 0. -/
def parse_dense_node_group (st : List String) (dateFactor granularity lonOfs latOfs : Int)
    (dense : DenseNodes) : Except PbfError (List DNode) :=
  parse_dense_aux st dateFactor granularity lonOfs latOfs dense dense.id.length 0 {} dense.keys_vals

/-- The loop of `parse_node_group` (lines 186-208): one buffer commit per
`OSMPBF::Node`, in group order. -/
def parse_node_group (st : List String) (dateFactor granularity lonOfs latOfs : Int) :
    List PbfNode → Except PbfError (List DNode)
  | [] => .ok []
  | pn :: pns =>
    ebind (parse_node st dateFactor granularity lonOfs latOfs pn) fun n =>
    ebind (parse_node_group st dateFactor granularity lonOfs latOfs pns) fun ns =>
    .ok (n :: ns)

/-- The loop of `parse_way_group` (lines 210-235). -/
def parse_way_group (st : List String) (dateFactor : Int) :
    List PbfWay → Except PbfError (List DWay)
  | [] => .ok []
  | pw :: pws =>
    ebind (parse_way st dateFactor pw) fun w =>
    ebind (parse_way_group st dateFactor pws) fun ws =>
    .ok (w :: ws)

/-- The loop of `parse_relation_group` (lines 237-262). -/
def parse_relation_group (st : List String) (dateFactor : Int) :
    List PbfRelation → Except PbfError (List DRelation)
  | [] => .ok []
  | pr :: prs =>
    ebind (parse_relation st dateFactor pr) fun r =>
    ebind (parse_relation_group st dateFactor prs) fun rs =>
    .ok (r :: rs)

/-- Group dispatch of `PBFPrimitiveBlockParser::operator()` (lines
145-159): `has_dense()` first, then non-empty `ways`, then non-empty
`relations`, then non-empty `nodes`; anything else is the
`pbf_error("group of unknown type")`. Groups of filtered-out entity kinds
are skipped (contribute nothing to the buffer). -/
def parse_group (st : List String) (dateFactor granularity lonOfs latOfs : Int)
    (readTypes : EntityBits) (g : PrimitiveGroup) : Except PbfError (List OsmEntity) :=
  match g.dense with
  | some dense =>
    if readTypes.node then
      ebind (parse_dense_node_group st dateFactor granularity lonOfs latOfs dense) fun ns =>
      .ok (ns.map .node)
    else .ok []
  | none =>
    if g.ways.length ≠ 0 then
      if readTypes.way then
        ebind (parse_way_group st dateFactor g.ways) fun ws =>
        .ok (ws.map .way)
      else .ok []
    else if g.relations.length ≠ 0 then
      if readTypes.relation then
        ebind (parse_relation_group st dateFactor g.relations) fun rs =>
        .ok (rs.map .relation)
      else .ok []
    else if g.nodes.length ≠ 0 then
      if readTypes.node then
        ebind (parse_node_group st dateFactor granularity lonOfs latOfs g.nodes) fun ns =>
        .ok (ns.map .node)
      else .ok []
    else .error (.corrupt "group of unknown type")

/-- The group loop of `operator()`: each group's entities are appended to
the single output buffer in file order. -/
def parse_groups (st : List String) (dateFactor granularity lonOfs latOfs : Int)
    (readTypes : EntityBits) : List PrimitiveGroup → Except PbfError (List OsmEntity)
  | [] => .ok []
  | g :: gs =>
    ebind (parse_group st dateFactor granularity lonOfs latOfs readTypes g) fun es =>
    ebind (parse_groups st dateFactor granularity lonOfs latOfs readTypes gs) fun rest =>
    .ok (es ++ rest)

/-- Embeds `PBFPrimitiveBlockParser::operator()` (lines 133-162) on an
already protobuf-decoded `PrimitiveBlock` (the protobuf wire reader
itself is an external collaborator): extract the string table, offsets,
date factor and granularity, then decode each group into the output
buffer. -/
def run_primitive_block (blk : PrimitiveBlock) (readTypes : EntityBits) :
    Except PbfError (List OsmEntity) :=
  parse_groups blk.stringtable (date_factor_of blk) blk.granularity
    blk.lon_offset blk.lat_offset readTypes blk.primitivegroup

/-- OSMPBF `BlobHeader` message. -/
structure BlobHeader where
  type : String := ""
  datasize : Int := 0
deriving DecidableEq

/-- OSMPBF `Blob` message; each payload variant carries its `has_*` flag
as an `Option`. An empty byte string parses to this default instance. -/
structure Blob where
  raw : Option (List Nat) := none
  raw_size : Int := 0
  zlib_data : Option (List Nat) := none
  lzma_data : Option (List Nat) := none
deriving DecidableEq

/-- Embeds `InputQueueReader::operator()` (lines 368-380) over a byte
stream: fill exactly `n` bytes or report EOF (`false`, here `none`) when
the stream is exhausted first. A zero-byte read always succeeds. -/
def read_exact (input : List Nat) (n : Nat) : Option (List Nat × List Nat) :=
  if n ≤ input.length then some (input.take n, input.drop n) else none

/-- Big-endian 32-bit size decode: `ntohl` of the four header bytes. -/
def be_u32 (bytes : List Nat) : Int :=
  Int.ofNat (bytes.foldl (fun a b => a * 256 + b % 256) 0)

/-- Embeds `PBFInputFormat::read_blob_header` (lines 567-593). EOF while
reading the 4-byte size is a clean end signalled as datasize 0; an
oversized header, a truncated header, an unparsable header or an
unexpected blob type each throw a `pbf_error`. The protobuf reader for
`BlobHeader` is passed as an external collaborator. Returns the declared
datasize and the unread rest of the stream. -/
def read_blob_header (parseBlobHeader : List Nat → Option BlobHeader)
    (expectedType : String) (input : List Nat) : Except PbfError (Int × List Nat) :=
  match read_exact input 4 with
  | none => .ok (0, input)
  | some (szBytes, rest) =>
    let size := be_u32 szBytes
    if max_blob_header_size < size then
      .error (.corrupt "invalid BlobHeader size (> max_blob_header_size)")
    else
      match read_exact rest size.toNat with
      | none => .error (.corrupt "read error")
      | some (hdrBytes, rest2) =>
        match parseBlobHeader hdrBytes with
        | none => .error (.corrupt "failed to parse BlobHeader")
        | some bh =>
          if bh.type ≠ expectedType then
            .error (.corrupt "blob does not have expected type (OSMHeader in first blob, OSMData in following blobs)")
          else .ok (bh.datasize, rest2)

/-- Embeds the `BlobParser` base constructor (lines 394-405). The member
initializer list runs `new unsigned char[size]` before the constructor
body: for a negative `size` that new-expression throws
`std::bad_array_new_length` (C++11), so the body's size validation is
never reached; an oversized `size` reaches the body and throws the
`pbf_error`; otherwise exactly `size` payload bytes are read, EOF being
the truncation `pbf_error`. Returns the payload and the unread rest. -/
def blob_parser_construct (size : Int) (input : List Nat) :
    Except PbfError (List Nat × List Nat) :=
  if size < 0 then .error .badArrayNewLength
  else if size < 0 ∨ max_uncompressed_blob_size < size then
    .error (.corrupt ("invalid blob size: " ++ toString size))
  else
    match read_exact input size.toNat with
    | none => .error (.corrupt "truncated data (EOF encountered)")
    | some (buf, rest) => .ok (buf, rest)

/-- Embeds `BlobParser::doit` / `operator()` (lines 409-453): parse the
`Blob` message, then dispatch on the payload variant: `raw` is returned
as-is; `zlib_data` is checked against `max_uncompressed_blob_size` by two
asserts and decompressed by the external zlib collaborator; `lzma_data`
and a missing payload each throw a `pbf_error`. -/
def blob_doit (parseBlob : List Nat → Option Blob)
    (zlibUncompress : List Nat → Int → Option (List Nat))
    (buf : List Nat) : Except PbfError (List Nat) :=
  match parseBlob buf with
  | none => .error (.corrupt "failed to parse blob")
  | some blob =>
    match blob.raw with
    | some data => .ok data
    | none =>
      match blob.zlib_data with
      | some zdata =>
        if blob.raw_size < 0 then .error .assertFail
        else if max_uncompressed_blob_size < blob.raw_size then .error .assertFail
        else
          match zlibUncompress zdata blob.raw_size with
          | none => .error (.corrupt "failed to uncompress data")
          | some data => .ok data
      | none =>
        match blob.lzma_data with
        | some _ => .error (.corrupt "lzma blobs not implemented")
        | none => .error (.corrupt "blob contains no data")

/-- Decoded file header (the outcome of `HeaderBlobParser::handle_blob`).
Only the fields claims refer to are kept as booleans; the remaining
`m_header.set` string properties are collected in order. -/
structure DHeader where
  pbf_dense_nodes : Bool := false
  has_multiple_object_versions : Bool := false
  settings : List (String × String) := []
deriving DecidableEq

/-- OSMPBF `HeaderBlock` message, trimmed to the fields
`HeaderBlobParser::handle_blob` reads. The bbox/replication fields are
omitted: no claim refers to them. -/
structure HeaderBlock where
  required_features : List String := []
  optional_features : List String := []
  writingprogram : Option String := none
deriving DecidableEq

/-- The required-features loop of `HeaderBlobParser::handle_blob` (lines
467-481): `OsmSchema-V0.6` is skipped, `DenseNodes` and
`HistoricalInformation` set header flags, anything else throws
`pbf_error("required feature not supported: ...")`. -/
def handle_required_features (hdr : DHeader) : List String → Except PbfError DHeader
  | [] => .ok hdr
  | f :: fs =>
    if f = "OsmSchema-V0.6" then handle_required_features hdr fs
    else if f = "DenseNodes" then
      handle_required_features { hdr with pbf_dense_nodes := true } fs
    else if f = "HistoricalInformation" then
      handle_required_features { hdr with has_multiple_object_versions := true } fs
    else .error (.corrupt ("required feature not supported: " ++ f))

/-- Embeds `HeaderBlobParser::handle_blob` (lines 461-512) minus the
bbox/replication properties no claim refers to: parse the `HeaderBlock`
(external protobuf reader), process required features, record optional
features and the writing program. -/
def handle_header_blob (parseHeaderBlock : List Nat → Option HeaderBlock)
    (data : List Nat) : Except PbfError DHeader :=
  match parseHeaderBlock data with
  | none => .error (.corrupt "failed to parse HeaderBlock")
  | some hb =>
    match handle_required_features {} hb.required_features with
    | .error e => .error e
    | .ok hdr =>
      let hdr2 := { hdr with settings :=
        hdr.settings ++ (hb.optional_features.enum.map
          (fun fi => ("pbf_optional_feature_" ++ toString fi.1, fi.2))) }
      let hdr3 := match hb.writingprogram with
        | some wp => { hdr2 with settings := hdr2.settings ++ [("generator", wp)] }
        | none => hdr2
      .ok hdr3

/-- Embeds the synchronous header path of the `PBFInputFormat` constructor
(lines 636-657): read the `OSMHeader` blob header, construct a
`HeaderBlobParser` for the declared datasize, and run its `doit` (parse
blob, decompress if needed, decode the `HeaderBlock`). The data-decoding
thread it spawns afterwards is outside this embedding. -/
def pbf_input_format_construct (parseBlobHeader : List Nat → Option BlobHeader)
    (parseBlob : List Nat → Option Blob)
    (zlibUncompress : List Nat → Int → Option (List Nat))
    (parseHeaderBlock : List Nat → Option HeaderBlock)
    (input : List Nat) : Except PbfError (DHeader × List Nat) :=
  match read_blob_header parseBlobHeader "OSMHeader" input with
  | .error e => .error e
  | .ok (size, rest) =>
    match blob_parser_construct size rest with
    | .error e => .error e
    | .ok (buf, rest2) =>
      match blob_doit parseBlob zlibUncompress buf with
      | .error e => .error e
      | .ok data =>
        match handle_header_blob parseHeaderBlock data with
        | .error e => .error e
        | .ok hdr => .ok (hdr, rest2)

/-- Modelled from the spec: `RelationSlot` / `RelationMeta`
(`osmium/relations/detail/relation_meta.hpp`, not under src/):
`{ buffer_offset, members_needed, members_found }`, completion iff
`members_found == members_needed`; the default-constructed value
(`RelationMeta()`, here `relation_offset = none`, both counters 0) is the
tombstone a completed slot is flipped to. -/
structure RelationMeta where
  relation_offset : Option Nat := none
  need_members : Nat := 0
  have_members : Nat := 0
deriving DecidableEq

/-- Modelled from the spec: `RelationMeta::has_all_members()` is
`members_found == members_needed`. -/
def RelationMeta.has_all_members (m : RelationMeta) : Bool :=
  m.need_members == m.have_members

/-- Modelled from the spec: `RelationMeta::got_one_member()` increments
the found-members counter. -/
def RelationMeta.got_one_member (m : RelationMeta) : RelationMeta :=
  { m with have_members := m.have_members + 1 }

/-- Modelled from the spec: `increment_need_members()`. -/
def RelationMeta.increment_need_members (m : RelationMeta) : RelationMeta :=
  { m with need_members := m.need_members + 1 }

/-- Modelled from the spec: `MemberMeta`
(`osmium/relations/detail/member_meta.hpp`, not under src/):
`(member_id, relation_slot, member_position, buffer_offset?)`, ordered by
`member_id` with insertion order breaking ties. -/
structure MemberMeta where
  member_id : Int
  relation_pos : Nat
  member_pos : Nat
  buffer_offset : Option Nat := none
deriving DecidableEq

/-- Modelled from the spec (§3 Ownership/lifecycle): an
`osmium::memory::Buffer` (not under src/) is an append-only region with a
committed watermark; `add_item` writes past the watermark, `commit`
advances the watermark over the pending write, `rollback` resets the
write head to the watermark. Item granularity replaces byte offsets. -/
structure CBuffer (α : Type) where
  committed : List α := []
  pending : List α := []
deriving DecidableEq

/-- Modelled from the spec: `Buffer::add_item` appends into the
uncommitted region. -/
def CBuffer.add_item {α : Type} (b : CBuffer α) (x : α) : CBuffer α :=
  { b with pending := b.pending ++ [x] }

/-- Modelled from the spec: `Buffer::commit` advances the watermark. -/
def CBuffer.commit {α : Type} (b : CBuffer α) : CBuffer α :=
  { committed := b.committed ++ b.pending, pending := [] }

/-- Modelled from the spec: `Buffer::rollback` discards the pending
write, resetting the write head to the watermark. -/
def CBuffer.rollback {α : Type} (b : CBuffer α) : CBuffer α :=
  { b with pending := [] }

/-- Modelled from the spec: `Buffer::committed()`, the committed
watermark (in items). -/
def CBuffer.watermark {α : Type} (b : CBuffer α) : Nat :=
  b.committed.length

/-- One member of a relation as stored in the collector's relation
buffer; `typ` uses the wire encoding 0/1/2 for node/way/relation. -/
structure CMember where
  typ : Nat
  ref : Int
  role : String := ""
deriving DecidableEq

/-- A relation copy held in the collector's relations buffer. -/
structure StoredRelation where
  id : Int
  members : List CMember
deriving DecidableEq

/-- A pass-2 object copy held in the collector's members buffer (only
its identity matters to the collector logic). -/
structure StoredObject where
  typ : Nat
  id : Int
deriving DecidableEq

/-- The three per-kind `m_member_meta` vectors (collector.hpp line 241). -/
structure MemberMetaVecs where
  nodes : List MemberMeta := []
  ways : List MemberMeta := []
  relations : List MemberMeta := []
deriving DecidableEq

/-- The `member_meta(type)` accessor (collector.hpp lines 263-265). -/
def MemberMetaVecs.vec_of (v : MemberMetaVecs) (typ : Nat) : List MemberMeta :=
  match typ with
  | 0 => v.nodes
  | 1 => v.ways
  | 2 => v.relations
  | _ => []

/-- Replacement of one per-kind vector. -/
def MemberMetaVecs.set_vec (v : MemberMetaVecs) (typ : Nat) (l : List MemberMeta) : MemberMetaVecs :=
  match typ with
  | 0 => { v with nodes := l }
  | 1 => { v with ways := l }
  | 2 => { v with relations := l }
  | _ => v

/-- The `emplace_back` into `member_meta(member.type())`
(collector.hpp line 389). -/
def MemberMetaVecs.emplace (v : MemberMetaVecs) (typ : Nat) (mm : MemberMeta) : MemberMetaVecs :=
  v.set_vec typ (v.vec_of typ ++ [mm])

/-- The collector state touched by the embedded operations: the relations
buffer, the members buffer, the `m_relations` slot vector, the member
meta vectors, and the log of `complete_relation` invocations (slot
indices in invocation order). -/
structure CollectorState where
  relations_buffer : CBuffer StoredRelation := {}
  members_buffer : CBuffer StoredObject := {}
  slots : List RelationMeta := []
  member_meta : MemberMetaVecs := {}
  fires : List Nat := []
deriving DecidableEq

/-- The member loop of `Collector::add_relation` (collector.hpp lines
386-395) over the stored copy's members, threading the member position
`n` and the evolving `RelationMeta`: a kept member emits a `MemberMeta`
entry for its kind and increments the needed count; a rejected member
has its `ref` zeroed in the stored copy. Returns the final meta, the
stored copy's member list, and the emplaced `(kind, MemberMeta)` entries
in order. -/
def add_relation_loop (keep_member : RelationMeta → CMember → Bool) (slotIdx : Nat) :
    List CMember → Nat → RelationMeta → RelationMeta × List CMember × List (Nat × MemberMeta)
  | [], _, meta => (meta, [], [])
  | m :: ms, n, meta =>
    if keep_member meta m then
      let meta1 := meta.increment_need_members
      let (metaF, stored, emplaced) := add_relation_loop keep_member slotIdx ms (n + 1) meta1
      (metaF, m :: stored, (m.typ, { member_id := m.ref, relation_pos := slotIdx, member_pos := n }) :: emplaced)
    else
      let (metaF, stored, emplaced) := add_relation_loop keep_member slotIdx ms (n + 1) meta
      (metaF, { m with ref := 0 } :: stored, emplaced)

/-- Embeds `Collector::add_relation` (collector.hpp lines 380-405): write
a copy of the relation past the relations-buffer watermark, walk its
members with `keep_member`, then either roll the write back (when the
fresh meta already `has_all_members()`, i.e. no member was kept) or
commit it and push the slot. In the source the copy is written first and
mutated in place; here the mutated copy is computed before `add_item`,
which yields the same final buffer contents. -/
def add_relation (keep_member : RelationMeta → CMember → Bool)
    (st : CollectorState) (rel : StoredRelation) : CollectorState :=
  let offset := st.relations_buffer.watermark
  let slotIdx := st.slots.length
  let res := add_relation_loop keep_member slotIdx rel.members 0 { relation_offset := some offset }
  let metaF := res.1
  let buf1 := st.relations_buffer.add_item { rel with members := res.2.1 }
  let mm1 := res.2.2.foldl (fun v tm => v.emplace tm.1 tm.2) st.member_meta
  if metaF.has_all_members then
    { st with relations_buffer := buf1.rollback, member_meta := mm1 }
  else
    { st with relations_buffer := buf1.commit,
              slots := st.slots ++ [metaF],
              member_meta := mm1 }

/-- The per-entry slot updates of `HandlerPass2::find_and_add_object`
(collector.hpp lines 161-177), flattened over the hit sequence: each hit
is the `relation_pos` of one matching `MemberMeta` entry, in equal-range
order, concatenated over the incoming objects. A hit names its slot
(`assert(member_meta.relation_pos() < m_collector.m_relations.size())`,
an out-of-range slot is the assert), increments its found counter with
`got_one_member()`, and when `has_all_members()` becomes true
`complete_relation` fires and the slot is flipped to the tombstone
`RelationMeta()`. Returns the final slot vector and the ordered list of
fired slot indices. -/
def run_hits : List RelationMeta → List Nat → Except PbfError (List RelationMeta × List Nat)
  | slots, [] => .ok (slots, [])
  | slots, q :: es =>
    match slots.get? q with
    | none => .error .assertFail
    | some m =>
      let m1 := m.got_one_member
      if m1.has_all_members then
        match run_hits (slots.set q {}) es with
        | .error e => .error e
        | .ok (slots2, fl) => .ok (slots2, q :: fl)
      else
        match run_hits (slots.set q m1) es with
        | .error e => .error e
        | .ok (slots2, fl) => .ok (slots2, fl)

/-- Embeds `HandlerPass2::find_and_add_object` (collector.hpp lines
146-180) for one incoming object of kind `typ` with id `oid`: equal-range
lookup over the sorted per-kind vector (all entries with this member id,
in stable order), `false` when empty; otherwise the object is committed
into the members buffer at the current watermark, every matching entry's
`buffer_offset` is set to that position, and the entries' slots are
updated in order (the `possibly_purge_deleted_members` compaction only
relocates member payload bytes and is not modelled). -/
def find_and_add_object (st : CollectorState) (typ : Nat) (oid : Int) :
    Except PbfError (Bool × CollectorState) :=
  let mmv := st.member_meta.vec_of typ
  let entries := mmv.filter (fun mm => mm.member_id = oid)
  if entries.isEmpty then .ok (false, st)
  else
    let pos := st.members_buffer.watermark
    let mb := (st.members_buffer.add_item { typ := typ, id := oid }).commit
    let mmv2 := mmv.map (fun mm => if mm.member_id = oid then { mm with buffer_offset := some pos } else mm)
    match run_hits st.slots (entries.map (fun mm => mm.relation_pos)) with
    | .error e => .error e
    | .ok (slots2, fl) =>
      .ok (true, { st with members_buffer := mb,
                           member_meta := st.member_meta.set_vec typ mmv2,
                           slots := slots2,
                           fires := st.fires ++ fl })

/-- Modelled from the spec: an `osmium::Timestamp`
(`osmium/osm/timestamp.hpp`, not under src/) stores seconds since the
epoch, while the spec's entity model measures timestamps in milliseconds;
this is the conversion between the two. -/
def timestamp_ms (seconds : Int) : Int :=
  seconds * 1000

/-- Discriminator: is this outcome a thrown `pbf_error` (the spec's
Corrupt taxonomy maps onto these)? -/
def is_pbf_exception {α : Type} (r : Except PbfError α) : Bool :=
  match r with
  | .error (.corrupt _) => true
  | _ => false

/-- Discriminator: is this outcome one of the errors the source raises
for an unexpected EOF (the spec's Truncated taxonomy): the payload
truncation error of the `BlobParser` constructor or the header-read
error of `read_blob_header`? -/
def is_truncated_error {α : Type} (r : Except PbfError α) : Bool :=
  match r with
  | .error (.corrupt msg) =>
    msg = "truncated data (EOF encountered)" ∨ msg = "read error"
  | _ => false

/-- Projection of the node ids out of a decoded output buffer, in
emission order. -/
def node_ids (l : List OsmEntity) : List Int :=
  l.filterMap (fun e => match e with
    | .node n => some n.attrs.id
    | _ => none)

/-- Sum of all dense id deltas over all groups of a block (0 for a group
without DenseNodes). -/
def all_dense_id_deltas (blk : PrimitiveBlock) : Int :=
  (blk.primitivegroup.map (fun g => ((g.dense.map DenseNodes.id).getD []).sum)).sum

/-- Modelled from the spec: the protobuf wire readers are external
collaborators (§1); a protobuf message parsed from zero bytes is the
default instance. This concrete `Blob` reader realizes exactly that law
and is used to evaluate the construction path on concrete inputs. -/
def default_blob_reader : List Nat → Option Blob :=
  fun bytes => if bytes = [] then some {} else none

/-- Concrete external `BlobHeader` reader for evaluating the construction
path on concrete inputs (never consulted on an empty stream). -/
def no_blob_header_reader : List Nat → Option BlobHeader :=
  fun _ => none

/-- Concrete external `HeaderBlock` reader for evaluating the
construction path on concrete inputs. -/
def no_header_block_reader : List Nat → Option HeaderBlock :=
  fun _ => none

/-- Concrete external zlib collaborator for evaluating the construction
path on concrete inputs. -/
def no_zlib : List Nat → Int → Option (List Nat) :=
  fun _ _ => none

/-- Wire form of a run of `(key_sid, value_sid)` pairs inside the flat
`keys_vals` stream. -/
def kv_encode (ps : List (Int × Int)) : List Int :=
  (ps.map (fun p => [p.1, p.2])).flatten

/-- String-table resolution of a run of `(key_sid, value_sid)` pairs. -/
def kv_decode (st : List String) (ps : List (Int × Int)) : List (String × String) :=
  ps.map (fun p => (st.getD p.1.toNat "", st.getD p.2.toNat ""))

/-- A string-table index the generated accessor accepts: non-negative and
in range. -/
def valid_sid (st : List String) (i : Int) : Prop :=
  0 ≤ i ∧ i.toNat < st.length

instance (st : List String) (i : Int) : Decidable (valid_sid st i) := by
  unfold valid_sid
  infer_instance

/-- Invariant of the pass-2 slot vector: a live slot (one whose relation
offset is recorded) still misses members; a tombstoned slot has needed
count 0. Initial slots satisfy it because pass 1 rolls back relations
with `needed = 0`, and the tombstone `RelationMeta()` satisfies it
trivially. -/
def SlotInv (m : RelationMeta) : Prop :=
  (m.relation_offset.isSome → m.have_members < m.need_members) ∧
  (m.relation_offset = none → m.need_members = 0)

/-! Support lemmas. -/

theorem tdiv_thousand_mul {a : Int} (h : (1000 : Int) ∣ a) :
    Int.tdiv a 1000 * 1000 = a := by
  obtain ⟨k, rfl⟩ := h
  rw [Int.mul_tdiv_cancel_left _ (by norm_num)]
  ring

@[simp] theorem ebind_ok_iff {α β : Type} {x : Except PbfError α}
    {f : α → Except PbfError β} {b : β} :
    ebind x f = .ok b ↔ ∃ a, x = .ok a ∧ f a = .ok b := by
  cases x <;> simp [ebind]

theorem ebind_ok {α β : Type} (a : α) (f : α → Except PbfError β) :
    ebind (.ok a) f = f a := rfl

theorem ebind_error {α β : Type} (e : PbfError) (f : α → Except PbfError β) :
    ebind (.error e) f = .error e := rfl

theorem parse_attributes_ok_some {st : List String} {df id : Int} {inf : Info} {a : Attrs}
    (h : parse_attributes st df id (some inf) = .ok a) :
    a = { id := id, version := inf.version, changeset := inf.changeset,
          timestamp := inf.timestamp * df, uid := inf.uid,
          visible := inf.visible.getD true, user := a.user } := by
  simp only [parse_attributes, ebind_ok_iff, Except.ok.injEq] at h
  obtain ⟨user, hu, h⟩ := h
  subst h
  rfl

theorem dense_step_ok_some {st : List String} {df g lo la : Int} {dense : DenseNodes}
    {di : DenseInfo} {i : Nat} {acc acc2 : DenseAcc} {kv kv2 : List Int} {nd : DNode}
    (hdi : dense.denseinfo = some di)
    (h : dense_step st df g lo la dense i acc kv = .ok (acc2, kv2, nd)) :
    nd.attrs.timestamp = acc2.timestamp * df ∧
    nd.attrs.id = acc2.id ∧
    nd.location = (if nd.attrs.visible then
      some (coord_conv g lo acc2.lon, coord_conv g la acc2.lat) else none) := by
  simp only [dense_step, hdi, ebind_ok_iff, Except.ok.injEq, Prod.mk.injEq] at h
  obtain ⟨dId, h1, dLat, h2, dLon, h3, dCs, h4, dTs, h5, dUid, h6, dSid, h7,
    vis, h8, uA, h9, v, h10, uB, h11, user, h12, tr, h13, hAcc, hKv, hNd⟩ := h
  subst hAcc
  subst hNd
  refine ⟨rfl, rfl, ?_⟩
  by_cases hv : vis <;> simp [hv]

theorem dense_step_ok_none {st : List String} {df g lo la : Int} {dense : DenseNodes}
    {i : Nat} {acc acc2 : DenseAcc} {kv kv2 : List Int} {nd : DNode}
    (hdi : dense.denseinfo = none)
    (h : dense_step st df g lo la dense i acc kv = .ok (acc2, kv2, nd)) :
    nd.attrs.visible = true ∧
    nd.attrs.id = acc2.id ∧
    nd.location = some (coord_conv g lo acc2.lon, coord_conv g la acc2.lat) := by
  simp only [dense_step, hdi, ebind_ok_iff, Except.ok.injEq, Prod.mk.injEq] at h
  obtain ⟨dId, h1, dLat, h2, dLon, h3, tr, h4, hAcc, hKv, hNd⟩ := h
  subst hAcc
  subst hNd
  exact ⟨rfl, rfl, rfl⟩

/-! Claim theorems. -/

/-- Claim C1, counterexample. The claim states that the decoded timestamp
in milliseconds equals `raw * date_granularity` for every block. With
`date_granularity = 1500` and wire timestamp 2, the decoder computes
`m_date_factor = 1500 / 1000 = 1` (truncating division, line 142) and
stores 2 seconds = 2000 ms, but `raw * date_granularity = 3000`. -/
theorem c1_counterexample :
    (parse_attributes [""] (date_factor_of { date_granularity := 1500 }) 1
        (some { timestamp := 2 })).map (fun a => timestamp_ms a.timestamp) = .ok 2000 ∧
    (2 : Int) * 1500 = 3000 ∧ (2000 : Int) ≠ 3000 := by
  refine ⟨by rfl, by norm_num, by norm_num⟩

/-- Claim C1, amended: the decoder stores `raw * (date_granularity / 1000)`
seconds (truncating division). Hence the decoded timestamp expressed in
milliseconds equals `raw * date_granularity` exactly when the block's
`date_granularity` is a multiple of 1000 (in particular for the default
1000); this holds on both the `parse_attributes` path (nodes, ways,
relations with `info`) and the dense path (where the raw wire timestamp
of a node is its delta-accumulated value). -/
theorem c1_timestamp_rule (blk : PrimitiveBlock)
    (h1000 : (1000 : Int) ∣ blk.date_granularity) :
    (∀ st id inf a, parse_attributes st (date_factor_of blk) id (some inf) = .ok a →
        timestamp_ms a.timestamp = inf.timestamp * blk.date_granularity) ∧
    (∀ st dense di i acc kv out, dense.denseinfo = some di →
        dense_step st (date_factor_of blk) blk.granularity blk.lon_offset
          blk.lat_offset dense i acc kv = .ok out →
        timestamp_ms out.2.2.attrs.timestamp = out.1.timestamp * blk.date_granularity) := by
  constructor
  · intro st id inf a h
    rw [parse_attributes_ok_some h]
    show inf.timestamp * date_factor_of blk * 1000 = _
    unfold date_factor_of
    rw [mul_assoc, tdiv_thousand_mul h1000]
  · intro st dense di i acc kv out hdi h
    obtain ⟨a2, k2, n2⟩ := out
    obtain ⟨ht, -, -⟩ := dense_step_ok_some hdi h
    show n2.attrs.timestamp * 1000 = _
    rw [ht]
    unfold date_factor_of
    rw [mul_assoc, tdiv_thousand_mul h1000]

/-- Claim C1, witness for the amended theorem at the default block
(`date_granularity = 1000`) and wire timestamp 5. -/
theorem c1_timestamp_rule_witness :
    ((1000 : Int) ∣ ({} : PrimitiveBlock).date_granularity) ∧
    timestamp_ms 5 = 5 * ({} : PrimitiveBlock).date_granularity :=
  ⟨by decide,
   (c1_timestamp_rule {} (by decide)).1 [""] 1 { timestamp := 5 }
     { id := 1, version := -1, timestamp := 5 } (by rfl)⟩

theorem delta_decode_length (acc : Int) (l : List Int) :
    (delta_decode acc l).length = l.length := by
  induction l generalizing acc with
  | nil => rfl
  | cons d ds ih => simp [delta_decode, ih]

theorem delta_decode_getD (acc : Int) (l : List Int) (k : Nat) (hk : k < l.length) :
    (delta_decode acc l).getD k 0 = acc + (l.take (k + 1)).sum := by
  induction l generalizing acc k with
  | nil => simp at hk
  | cons d ds ih =>
    cases k with
    | zero => simp [delta_decode]
    | succ k =>
      have hk2 : k < ds.length := by simpa using hk
      simp only [delta_decode, List.getD_cons_succ, List.take_succ_cons, List.sum_cons]
      rw [ih (acc + d) k hk2]
      ring

theorem parse_way_ok_refs {st : List String} {df : Int} {pw : PbfWay} {w : DWay}
    (h : parse_way st df pw = .ok w) : w.refs = delta_decode 0 pw.refs := by
  simp only [parse_way, ebind_ok_iff, Except.ok.injEq] at h
  obtain ⟨a, ha, tags, ht, hw⟩ := h
  subst hw
  rfl

theorem parse_members_ok {st : List String} :
    ∀ {ts : List Int} {mids roles : List Int} {acc : Int} {l : List DMember},
    parse_members st acc ts mids roles = .ok l →
    l.length = ts.length ∧ l.map DMember.ref = delta_decode acc (mids.take ts.length) := by
  intro ts
  induction ts with
  | nil =>
    intro mids roles acc l h
    simp only [parse_members, Except.ok.injEq] at h
    subst h
    simp [delta_decode]
  | cons t ts ih =>
    intro mids roles acc l h
    cases mids with
    | nil => simp [parse_members] at h
    | cons mid mids =>
      cases roles with
      | nil => simp [parse_members] at h
      | cons rs roles =>
        simp only [parse_members, ebind_ok_iff, Except.ok.injEq] at h
        obtain ⟨role, hrole, rest, hrest, hl⟩ := h
        subst hl
        obtain ⟨hlen, hmap⟩ := ih hrest
        constructor
        · simpa using hlen
        · simp only [List.map_cons, List.take_succ_cons, delta_decode, hmap]

theorem parse_relation_ok_members {st : List String} {df : Int} {pr : PbfRelation} {r : DRelation}
    (h : parse_relation st df pr = .ok r) :
    r.members.length = pr.types.length ∧
    r.members.map DMember.ref = delta_decode 0 (pr.memids.take pr.types.length) := by
  simp only [parse_relation, ebind_ok_iff, Except.ok.injEq] at h
  obtain ⟨a, ha, members, hm, tags, ht, hr⟩ := h
  subst hr
  exact parse_members_ok hm

/-- Claim C5: way node refs and relation member ids are reconstructed by
prefix sum from initial accumulator 0. For ways (lines 216-223) the loop
runs over the `refs` wire array itself; for relations (lines 243-250) the
loop runs over `types`, so the wire arrays must be parallel
(`types.length = memids.length`, as the OSM-PBF schema requires) for the
decoded member list to have the length of the `memids` wire array. In
each position the decoded value is the sum of the first `k+1` wire
deltas. -/
theorem c5_delta_refs :
    (∀ st df pw w, parse_way st df pw = .ok w →
       w.refs.length = pw.refs.length ∧
       ∀ k, k < pw.refs.length → w.refs.getD k 0 = (pw.refs.take (k + 1)).sum) ∧
    (∀ st df pr r, parse_relation st df pr = .ok r →
       pr.types.length = pr.memids.length →
       r.members.length = pr.memids.length ∧
       ∀ k, k < pr.memids.length →
         (r.members.map DMember.ref).getD k 0 = (pr.memids.take (k + 1)).sum) := by
  constructor
  · intro st df pw w h
    have hr := parse_way_ok_refs h
    constructor
    · rw [hr, delta_decode_length]
    · intro k hk
      rw [hr, delta_decode_getD 0 pw.refs k hk, zero_add]
  · intro st df pr r h hpar
    obtain ⟨hlen, hmap⟩ := parse_relation_ok_members h
    have htake : pr.memids.take pr.types.length = pr.memids := by
      rw [hpar, List.take_length]
    constructor
    · rw [hlen, hpar]
    · intro k hk
      rw [hmap, htake, delta_decode_getD 0 pr.memids k hk, zero_add]

/-- Claim C5, witness at the spec's way scenario `refs = [100, 5, -10]`
and a two-member relation. -/
theorem c5_delta_refs_witness :
    parse_way [""] 1 { id := 1, refs := [100, 5, -10] } =
      .ok { attrs := { id := 1 }, refs := [100, 105, 95] } ∧
    ([100, 105, 95] : List Int).length = ([100, 5, -10] : List Int).length ∧
    (∀ k, k < ([100, 5, -10] : List Int).length →
      ([100, 105, 95] : List Int).getD k 0 = (([100, 5, -10] : List Int).take (k + 1)).sum) ∧
    parse_relation [""] 1 { id := 2, roles_sid := [0, 0], memids := [7, 1], types := [1, 1] } =
      .ok { attrs := { id := 2 },
            members := [{ typ := 1, ref := 7, role := "" }, { typ := 1, ref := 8, role := "" }] } ∧
    (∀ k, k < ([7, 1] : List Int).length →
      (([{ typ := 1, ref := 7, role := "" }, { typ := 1, ref := 8, role := "" }] : List DMember).map
        DMember.ref).getD k 0 = (([7, 1] : List Int).take (k + 1)).sum) :=
  ⟨by rfl,
   (c5_delta_refs.1 [""] 1 { id := 1, refs := [100, 5, -10] }
      { attrs := { id := 1 }, refs := [100, 105, 95] } (by rfl)).1,
   (c5_delta_refs.1 [""] 1 { id := 1, refs := [100, 5, -10] }
      { attrs := { id := 1 }, refs := [100, 105, 95] } (by rfl)).2,
   by rfl,
   (c5_delta_refs.2 [""] 1 { id := 2, roles_sid := [0, 0], memids := [7, 1], types := [1, 1] }
      { attrs := { id := 2 },
        members := [{ typ := 1, ref := 7, role := "" }, { typ := 1, ref := 8, role := "" }] }
      (by rfl) (by rfl)).2⟩

theorem stringtable_s_valid {st : List String} {i : Int} (h : valid_sid st i) :
    stringtable_s st i = .ok (st.getD i.toNat "") := by
  obtain ⟨h1, h2⟩ := h
  unfold stringtable_s pbGet
  rw [if_neg (not_lt.mpr h1)]
  rw [List.get?_eq_getElem?, List.getElem?_eq_getElem h2]
  rw [List.getD_eq_getElem?_getD, List.getElem?_eq_getElem h2]
  rfl

theorem add_tags_append {st : List String} {ps : List (Int × Int)}
    (hnz : ∀ p ∈ ps, p.1 ≠ 0) (hval : ∀ p ∈ ps, valid_sid st p.1 ∧ valid_sid st p.2)
    (tail : List Int) :
    add_tags st (kv_encode ps ++ tail) =
      ebind (add_tags st tail) fun tr => .ok (kv_decode st ps ++ tr.1, tr.2) := by
  induction ps with
  | nil =>
    simp only [kv_encode, List.map_nil, List.flatten_nil, List.nil_append, kv_decode]
    cases h : add_tags st tail with
    | error e => simp [ebind]
    | ok tr => simp [ebind]
  | cons p ps ih =>
    have hp1 : p.1 ≠ 0 := hnz p (by simp)
    have hv1 : valid_sid st p.1 := (hval p (by simp)).1
    have hv2 : valid_sid st p.2 := (hval p (by simp)).2
    have ihx := ih (fun q hq => hnz q (by simp [hq])) (fun q hq => hval q (by simp [hq]))
    simp only [kv_encode, List.map_cons, List.flatten_cons, List.cons_append] at *
    show add_tags st (p.1 :: p.2 :: ((ps.map fun q => [q.1, q.2]).flatten ++ tail)) = _
    rw [add_tags, if_neg hp1]
    rw [stringtable_s_valid hv1, ebind_ok, stringtable_s_valid hv2, ebind_ok, ihx]
    cases h : add_tags st tail with
    | error e => simp [ebind]
    | ok tr => simp [ebind, kv_decode]

theorem add_tags_sentinel (st : List String) (rest : List Int) :
    add_tags st (0 :: rest) = .ok ([], rest) := by
  unfold add_tags
  simp

/-- Claim C6: dense tag consumption. With the shared `keys_vals` cursor at
a given suffix: an exhausted stream yields no tags; a suffix starting
with the 0 sentinel yields no tags and consumes the sentinel; a suffix
`kv_encode ps ++ 0 :: rest` with all keys of `ps` non-zero yields exactly
the run `ps` (resolved through the string table), consumes its
terminating sentinel and leaves `rest` for the next node; a suffix that
is exactly `kv_encode ps` with no sentinel yields the run `ps` and leaves
the stream exhausted for the remaining nodes. -/
theorem c6_dense_tags (st : List String) (ps : List (Int × Int)) (rest : List Int)
    (hnz : ∀ p ∈ ps, p.1 ≠ 0)
    (hval : ∀ p ∈ ps, valid_sid st p.1 ∧ valid_sid st p.2) :
    add_tags st [] = .ok ([], []) ∧
    add_tags st (0 :: rest) = .ok ([], rest) ∧
    add_tags st (kv_encode ps ++ 0 :: rest) = .ok (kv_decode st ps, rest) ∧
    add_tags st (kv_encode ps) = .ok (kv_decode st ps, []) := by
  refine ⟨rfl, add_tags_sentinel st rest, ?_, ?_⟩
  · rw [add_tags_append hnz hval (0 :: rest), add_tags_sentinel st rest]
    simp [ebind]
  · have h := add_tags_append hnz hval []
    simp only [List.append_nil] at h
    rw [h]
    rw [show add_tags st ([] : List Int) = .ok ([], []) from rfl]
    simp [ebind]

/-- Claim C6, witness at the spec's dense-tags scenario: stringtable
`["", "k1", "v1", "k2", "v2"]`, `keys_vals = [1, 2, 0, 3, 4, 0]`; the
first node consumes `(1, 2)` and its sentinel, leaving `[3, 4, 0]` for
the second node, which consumes `(3, 4)` and its sentinel. -/
theorem c6_dense_tags_witness :
    (∀ p ∈ ([(1, 2)] : List (Int × Int)), p.1 ≠ 0) ∧
    add_tags ["", "k1", "v1", "k2", "v2"] ([1, 2] ++ 0 :: [3, 4, 0]) =
      .ok ([("k1", "v1")], [3, 4, 0]) ∧
    add_tags ["", "k1", "v1", "k2", "v2"] ([3, 4] ++ 0 :: []) =
      .ok ([("k2", "v2")], []) :=
  ⟨by decide,
   (c6_dense_tags ["", "k1", "v1", "k2", "v2"] [(1, 2)] [3, 4, 0]
      (by decide) (by decide)).2.2.1,
   (c6_dense_tags ["", "k1", "v1", "k2", "v2"] [(3, 4)] []
      (by decide) (by decide)).2.2.1⟩

theorem parse_node_ok {st : List String} {df g lo la : Int} {pn : PbfNode} {nd : DNode}
    (h : parse_node st df g lo la pn = .ok nd) :
    nd.location = (if nd.attrs.visible then
      some (coord_conv g lo pn.lon, coord_conv g la pn.lat) else none) := by
  simp only [parse_node, ebind_ok_iff, Except.ok.injEq] at h
  obtain ⟨a, ha, tags, ht, hnd⟩ := h
  subst hnd
  rfl

/-- Claim C7: for every visible decoded node, dense or non-dense, each
fixed-point coordinate is `(raw * granularity + offset) / 100` in exact
(truncating) integer arithmetic on the accumulated raw value, and the
divisor is computed as `lonlat_resolution / coordinate_precision`
= 10^9 / 10^7 = 100. -/
theorem c7_coordinate_rule :
    Int.tdiv lonlat_resolution coordinate_precision = 100 ∧
    (∀ g off raw, coord_conv g off raw = Int.tdiv (raw * g + off) 100) ∧
    (∀ st df g lo la pn nd, parse_node st df g lo la pn = .ok nd →
       nd.attrs.visible = true →
       nd.location = some (Int.tdiv (pn.lon * g + lo) 100, Int.tdiv (pn.lat * g + la) 100)) ∧
    (∀ st df g lo la dense i acc kv out,
       dense_step st df g lo la dense i acc kv = .ok out →
       out.2.2.attrs.visible = true →
       out.2.2.location =
         some (Int.tdiv (out.1.lon * g + lo) 100, Int.tdiv (out.1.lat * g + la) 100)) := by
  have h100 : Int.tdiv lonlat_resolution coordinate_precision = 100 := by decide
  have hcc : ∀ g off raw, coord_conv g off raw = Int.tdiv (raw * g + off) 100 := by
    intro g off raw
    rw [coord_conv, h100]
  refine ⟨h100, hcc, ?_, ?_⟩
  · intro st df g lo la pn nd h hvis
    rw [parse_node_ok h, hvis, if_pos rfl, hcc, hcc]
  · intro st df g lo la dense i acc kv out h hvis
    obtain ⟨a2, k2, n2⟩ := out
    cases hdi : dense.denseinfo with
    | some di =>
      obtain ⟨-, -, hloc⟩ := dense_step_ok_some hdi h
      rw [show ((a2, k2, n2) : DenseAcc × List Int × DNode).2.2 = n2 from rfl] at hvis ⊢
      rw [hloc, hvis, if_pos rfl, hcc, hcc]
    | none =>
      obtain ⟨-, -, hloc⟩ := dense_step_ok_none hdi h
      rw [show ((a2, k2, n2) : DenseAcc × List Int × DNode).2.2 = n2 from rfl] at hvis ⊢
      rw [hloc, hcc, hcc]

/-- Claim C7, witness at the spec's tiny-dense-node scenario:
`lon_raw = 1_300_000_000`, `lat_raw = 520_000_000`, granularity 100,
offsets 0, decoded via the non-dense path. -/
theorem c7_coordinate_rule_witness :
    parse_node [""] 1 100 0 0 { id := 1001, lat := 520000000, lon := 1300000000 } =
      .ok { attrs := { id := 1001 }, location := some (1300000000, 520000000) } ∧
    ({ attrs := { id := 1001 }, location := some (1300000000, 520000000) } : DNode).attrs.visible
      = true ∧
    ({ attrs := { id := 1001 }, location := some (1300000000, 520000000) } : DNode).location =
      some (Int.tdiv ((1300000000 : Int) * 100 + 0) 100, Int.tdiv ((520000000 : Int) * 100 + 0) 100) :=
  ⟨by rfl, by rfl,
   c7_coordinate_rule.2.2.1 [""] 1 100 0 0 { id := 1001, lat := 520000000, lon := 1300000000 }
     { attrs := { id := 1001 }, location := some (1300000000, 520000000) } (by rfl) (by rfl)⟩

theorem dense_asserts_violated {a : DenseAcc}
    (hv : a.changeset < 0 ∨ a.timestamp < 0 ∨ a.uid < -1 ∨ a.user_sid < 0) :
    dense_asserts a = .error .assertFail := by
  unfold dense_asserts
  split_ifs with h1 h2 h3 h4
  any_goals rfl
  rcases hv with hv | hv | hv | hv <;> omega

theorem dense_asserts_cases (a : DenseAcc) :
    dense_asserts a = .ok () ∨ dense_asserts a = .error .assertFail := by
  unfold dense_asserts
  split_ifs <;> simp

/-- Claim C2, counterexample. The claim states that a violated dense-step
condition raises a Corrupt error (a thrown `pbf_error`). The source
checks the conditions with C `assert(...)` (lines 318-321 and 331), which
aborts the debug build and throws nothing: decoding a dense group whose
first accumulated changeset is -1 ends in the assertion failure, not in
a `pbf_error`. -/
theorem c2_counterexample :
    parse_dense_node_group [""] 1 100 0 0
      { id := [1], lat := [0], lon := [0],
        denseinfo := some { version := [1], timestamp := [0], changeset := [-1],
                            uid := [0], user_sid := [0] } } = .error .assertFail ∧
    is_pbf_exception (parse_dense_node_group [""] 1 100 0 0
      { id := [1], lat := [0], lon := [0],
        denseinfo := some { version := [1], timestamp := [0], changeset := [-1],
                            uid := [0], user_sid := [0] } }) = false :=
  ⟨by rfl, by rfl⟩

/-- Claim C2, amended: on every dense step with `denseinfo` present whose
reads succeed, the decoder checks `changeset >= 0`, `timestamp >= 0`,
`uid >= -1`, `user_sid >= 0` and `version > 0` on the accumulated values,
and a violation of any of them halts decoding through a C assertion
failure (`assert`, a debug-build abort), not through a thrown
Corrupt/`pbf_error`. -/
theorem c2_dense_step_asserts (st : List String) (df g lo la : Int) (dense : DenseNodes)
    (di : DenseInfo) (i : Nat) (acc : DenseAcc) (kv : List Int)
    (dId dLat dLon dCs dTs dUid dSid v : Int)
    (hdi : dense.denseinfo = some di)
    (h1 : pbGet dense.id i = .ok dId) (h2 : pbGet dense.lat i = .ok dLat)
    (h3 : pbGet dense.lon i = .ok dLon)
    (h4 : pbGet di.changeset i = .ok dCs) (h5 : pbGet di.timestamp i = .ok dTs)
    (h6 : pbGet di.uid i = .ok dUid) (h7 : pbGet di.user_sid i = .ok dSid)
    (hvb : ∃ b, dense_visible di i = .ok b)
    (h8 : pbGet di.version i = .ok v)
    (hviol : acc.changeset + dCs < 0 ∨ acc.timestamp + dTs < 0 ∨
             acc.uid + dUid < -1 ∨ acc.user_sid + dSid < 0 ∨ v ≤ 0) :
    dense_step st df g lo la dense i acc kv = .error .assertFail := by
  obtain ⟨b, hb⟩ := hvb
  simp only [dense_step, hdi, h1, h2, h3, h4, h5, h6, h7, hb, ebind_ok]
  rcases hviol with hv | hv | hv | hv | hv
  · rw [dense_asserts_violated
      (a := ⟨acc.id + dId, acc.lat + dLat, acc.lon + dLon, acc.uid + dUid,
             acc.user_sid + dSid, acc.changeset + dCs, acc.timestamp + dTs⟩) (Or.inl hv)]
    rfl
  · rw [dense_asserts_violated
      (a := ⟨acc.id + dId, acc.lat + dLat, acc.lon + dLon, acc.uid + dUid,
             acc.user_sid + dSid, acc.changeset + dCs, acc.timestamp + dTs⟩)
      (Or.inr (Or.inl hv))]
    rfl
  · rw [dense_asserts_violated
      (a := ⟨acc.id + dId, acc.lat + dLat, acc.lon + dLon, acc.uid + dUid,
             acc.user_sid + dSid, acc.changeset + dCs, acc.timestamp + dTs⟩)
      (Or.inr (Or.inr (Or.inl hv)))]
    rfl
  · rw [dense_asserts_violated
      (a := ⟨acc.id + dId, acc.lat + dLat, acc.lon + dLon, acc.uid + dUid,
             acc.user_sid + dSid, acc.changeset + dCs, acc.timestamp + dTs⟩)
      (Or.inr (Or.inr (Or.inr hv)))]
    rfl
  · rcases dense_asserts_cases
      ⟨acc.id + dId, acc.lat + dLat, acc.lon + dLon, acc.uid + dUid,
       acc.user_sid + dSid, acc.changeset + dCs, acc.timestamp + dTs⟩ with ha | ha
    · rw [ha, ebind_ok, h8, ebind_ok]
      unfold version_check
      rw [if_pos hv]
      rfl
    · rw [ha]
      rfl

/-- Claim C2, witness for the amended theorem: a dense entry whose
accumulated uid is -2 trips the `uid >= -1` assert. -/
theorem c2_dense_step_asserts_witness :
    pbGet ([1] : List Int) 0 = .ok 1 ∧
    pbGet ([-2] : List Int) 0 = .ok (-2) ∧
    ((0 : Int) + (-2) < -1 ∨ False) ∧
    dense_step [""] 1 100 0 0
      { id := [1], lat := [0], lon := [0],
        denseinfo := some { version := [1], timestamp := [0], changeset := [0],
                            uid := [-2], user_sid := [0] } } 0 {} [] = .error .assertFail :=
  ⟨by rfl, by rfl, by norm_num,
   c2_dense_step_asserts [""] 1 100 0 0
     { id := [1], lat := [0], lon := [0],
       denseinfo := some { version := [1], timestamp := [0], changeset := [0],
                           uid := [-2], user_sid := [0] } }
     { version := [1], timestamp := [0], changeset := [0], uid := [-2], user_sid := [0] }
     0 {} [] 1 0 0 0 0 (-2) 0 1
     (by rfl) (by rfl) (by rfl) (by rfl) (by rfl) (by rfl) (by rfl) (by rfl)
     ⟨true, by rfl⟩ (by rfl)
     (by norm_num)⟩

/-- Claim C3, counterexample. The claim states that an empty input makes
reader construction raise a Truncated error immediately on reading the
header. In the source `read_blob_header` signals EOF on the 4-byte size
read by returning datasize 0 (lines 570-572, "0 on EOF"), no error; the
constructor then builds a `HeaderBlobParser` for 0 bytes, whose `doit`
parses the empty `Blob` message successfully (all fields optional) and
throws `pbf_error("blob contains no data")` — a Corrupt-class error from
the blob dispatch, not a Truncated one from reading the header. -/
theorem c3_counterexample :
    pbf_input_format_construct no_blob_header_reader default_blob_reader no_zlib
      no_header_block_reader [] = .error (.corrupt "blob contains no data") ∧
    is_truncated_error (pbf_input_format_construct no_blob_header_reader default_blob_reader
      no_zlib no_header_block_reader []) = false :=
  ⟨by rfl, by rfl⟩

/-- Claim C3, amended: on empty input the header-size read reports clean
EOF as datasize 0 without raising anything, and construction then fails
inside the header blob parser with `pbf_error("blob contains no data")`
(Corrupt), not with a Truncated error. Stated for any external protobuf
`Blob` reader satisfying the protobuf law that zero bytes parse to the
default message. -/
theorem c3_empty_input (parseBH : List Nat → Option BlobHeader)
    (parseBlob : List Nat → Option Blob)
    (zlib : List Nat → Int → Option (List Nat)) (parseHB : List Nat → Option HeaderBlock)
    (hdefault : parseBlob [] = some {}) :
    read_blob_header parseBH "OSMHeader" [] = .ok (0, []) ∧
    pbf_input_format_construct parseBH parseBlob zlib parseHB [] =
      .error (.corrupt "blob contains no data") := by
  constructor
  · rfl
  · simp only [pbf_input_format_construct,
      show read_blob_header parseBH "OSMHeader" [] = .ok (0, ([] : List Nat)) from rfl,
      show blob_parser_construct 0 [] = .ok (([] : List Nat), ([] : List Nat)) from rfl,
      blob_doit, hdefault]

/-- Claim C3, witness for the amended theorem at the modelled default
`Blob` reader. -/
theorem c3_empty_input_witness :
    default_blob_reader [] = some {} ∧
    pbf_input_format_construct no_blob_header_reader default_blob_reader no_zlib
      no_header_block_reader [] = .error (.corrupt "blob contains no data") :=
  ⟨by rfl,
   (c3_empty_input no_blob_header_reader default_blob_reader no_zlib
     no_header_block_reader (by rfl)).2⟩

/-- Claim C10, evaluation at the failing input. The claim states a
negative or oversized declared datasize makes `BlobParser` construction
throw a `pbf_error` before reading anything. The size validation does sit
in the constructor body before any input read (lines 399-404), but the
member initializer list first runs `new unsigned char[size]` (line 395):
for `size = -1` that new-expression throws `std::bad_array_new_length`
before the validation can throw the `pbf_error`. The oversized branch
reaches the body check and does throw the `pbf_error`, with nothing read
from the input in either case. -/
theorem c10_blob_size_validation :
    blob_parser_construct (-1) [0, 1, 2] = .error .badArrayNewLength ∧
    is_pbf_exception (blob_parser_construct (-1) [0, 1, 2]) = false ∧
    blob_parser_construct (max_uncompressed_blob_size + 1) [0, 1, 2] =
      .error (.corrupt ("invalid blob size: " ++ toString (max_uncompressed_blob_size + 1))) :=
  ⟨by rfl, by rfl, by rfl⟩

theorem pbGet_ok_drop {α : Type} :
    ∀ {l : List α} {i : Nat} {a : α}, pbGet l i = .ok a → l.drop i = a :: l.drop (i + 1) := by
  intro l
  induction l with
  | nil =>
    intro i a h
    simp [pbGet] at h
  | cons x xs ih =>
    intro i a h
    cases i with
    | zero =>
      simp only [pbGet, List.get?_cons_zero, Except.ok.injEq] at h
      subst h
      rfl
    | succ i =>
      have h2 : pbGet xs i = .ok a := by
        simpa only [pbGet, List.get?_cons_succ] using h
      have := ih h2
      simpa [List.drop_succ_cons] using this

theorem dense_step_ok_id {st : List String} {df g lo la : Int} {dense : DenseNodes}
    {i : Nat} {acc : DenseAcc} {kv : List Int} {out : DenseAcc × List Int × DNode}
    (h : dense_step st df g lo la dense i acc kv = .ok out) :
    ∃ dId, pbGet dense.id i = .ok dId ∧ out.1.id = acc.id + dId ∧
      out.2.2.attrs.id = acc.id + dId := by
  cases hdi : dense.denseinfo with
  | some di =>
    simp only [dense_step, hdi, ebind_ok_iff, Except.ok.injEq] at h
    obtain ⟨dId, h1, dLat, h2, dLon, h3, dCs, h4, dTs, h5, dUid, h6, dSid, h7,
      vis, h8, uA, h9, v, h10, uB, h11, user, h12, tr, h13, hout⟩ := h
    subst hout
    exact ⟨dId, h1, rfl, rfl⟩
  | none =>
    simp only [dense_step, hdi, ebind_ok_iff, Except.ok.injEq] at h
    obtain ⟨dId, h1, dLat, h2, dLon, h3, tr, h4, hout⟩ := h
    subst hout
    exact ⟨dId, h1, rfl, rfl⟩

theorem parse_dense_aux_ids {st : List String} {df g lo la : Int} {dense : DenseNodes} :
    ∀ (n i : Nat) (acc : DenseAcc) (kv : List Int) (ns : List DNode),
    parse_dense_aux st df g lo la dense n i acc kv = .ok ns →
    ns.map (fun nd => nd.attrs.id) = delta_decode acc.id ((dense.id.drop i).take n) := by
  intro n
  induction n with
  | zero =>
    intro i acc kv ns h
    simp only [parse_dense_aux, Except.ok.injEq] at h
    subst h
    simp [delta_decode]
  | succ n ih =>
    intro i acc kv ns h
    simp only [parse_dense_aux, ebind_ok_iff, Except.ok.injEq] at h
    obtain ⟨r, hstep, rest, hrest, hns⟩ := h
    subst hns
    obtain ⟨dId, hget, hrid, hnid⟩ := dense_step_ok_id hstep
    rw [pbGet_ok_drop hget, List.take_succ_cons]
    simp only [List.map_cons, delta_decode, hnid]
    have ihx := ih (i + 1) r.1 r.2.1 rest hrest
    rw [ihx, hrid]

theorem parse_dense_node_group_ids {st : List String} {df g lo la : Int}
    {dense : DenseNodes} {ns : List DNode}
    (h : parse_dense_node_group st df g lo la dense = .ok ns) :
    ns.map (fun nd => nd.attrs.id) = delta_decode 0 dense.id ∧
    ns.length = dense.id.length := by
  have hx := parse_dense_aux_ids dense.id.length 0 {} dense.keys_vals ns h
  simp only [List.drop_zero, List.take_length] at hx
  refine ⟨hx, ?_⟩
  have := congrArg List.length hx
  simpa [delta_decode_length] using this

theorem node_ids_append (l1 l2 : List OsmEntity) :
    node_ids (l1 ++ l2) = node_ids l1 ++ node_ids l2 := by
  simp [node_ids]

theorem node_ids_map_node (ns : List DNode) :
    node_ids (ns.map .node) = ns.map (fun nd => nd.attrs.id) := by
  induction ns with
  | nil => rfl
  | cons n ns ih => simp [node_ids] at ih ⊢; exact ih

theorem delta_decode_getLast_some (a : Int) :
    ∀ l : List Int, l ≠ [] → (delta_decode a l).getLast? = some (a + l.sum) := by
  intro l
  induction l generalizing a with
  | nil => intro h; exact absurd rfl h
  | cons d ds ih =>
    intro _
    cases hds : ds with
    | nil => simp [delta_decode]
    | cons e es =>
      subst hds
      rw [delta_decode]
      rw [show delta_decode (a + d) (e :: es) = (a + d + e) :: delta_decode (a + d + e) es from rfl]
      rw [List.getLast?_cons_cons]
      rw [← show delta_decode (a + d) (e :: es) = (a + d + e) :: delta_decode (a + d + e) es from rfl]
      rw [ih (a + d) (by simp)]
      simp only [List.sum_cons, Option.some.injEq]
      ring

theorem delta_decode_last_sum (l : List Int) :
    ((delta_decode 0 l).getLast?).getD 0 = l.sum := by
  cases hl : l with
  | nil => rfl
  | cons d ds =>
    rw [delta_decode_getLast_some 0 (d :: ds) (by simp)]
    simp

theorem parse_groups_all_dense {st : List String} {df g lo la : Int} {bits : EntityBits}
    (hnode : bits.node = true) :
    ∀ {gs : List PrimitiveGroup} {out : List OsmEntity},
    (∀ gr ∈ gs, gr.dense.isSome) →
    parse_groups st df g lo la bits gs = .ok out →
    node_ids out = (gs.map (fun gr => delta_decode 0 ((gr.dense.getD {}).id))).flatten ∧
    out.length = (gs.map (fun gr => (gr.dense.getD {}).id.length)).sum := by
  intro gs
  induction gs with
  | nil =>
    intro out hd h
    simp only [parse_groups, Except.ok.injEq] at h
    subst h
    simp [node_ids]
  | cons gr gs ih =>
    intro out hd h
    obtain ⟨d, hdg⟩ := Option.isSome_iff_exists.mp (hd gr (by simp))
    simp only [parse_groups, ebind_ok_iff, Except.ok.injEq] at h
    obtain ⟨es, hes, rest, hrest, hout⟩ := h
    subst hout
    rw [parse_group, hdg, hnode] at hes
    simp only [if_true, ebind_ok_iff, Except.ok.injEq] at hes
    obtain ⟨ns, hns, hesv⟩ := hes
    subst hesv
    obtain ⟨hids, hlen⟩ := parse_dense_node_group_ids hns
    obtain ⟨ih1, ih2⟩ := ih (fun q hq => hd q (by simp [hq])) hrest
    constructor
    · rw [node_ids_append, node_ids_map_node, hids, ih1]
      simp [hdg]
    · simp only [List.length_append, List.length_map, hlen, ih2, List.map_cons,
        List.sum_cons, hdg, Option.getD_some]

/-- Claim C8, counterexample. The claim states that for a block of only
DenseNodes groups the id of the last emitted node equals the sum of all
wire id deltas. The delta accumulators are local variables of
`parse_dense_node_group` (lines 292-299) and reset at every group
boundary: a block with two dense groups carrying id deltas `[5]` and
`[7]` emits nodes with ids 5 and 7, so the last id is 7 while the sum of
all wire deltas is 12. -/
theorem c8_counterexample :
    (run_primitive_block
      { stringtable := [""],
        primitivegroup := [{ dense := some { id := [5], lat := [0], lon := [0] } },
                           { dense := some { id := [7], lat := [0], lon := [0] } }] }
      {}).map node_ids = .ok [5, 7] ∧
    all_dense_id_deltas
      { stringtable := [""],
        primitivegroup := [{ dense := some { id := [5], lat := [0], lon := [0] } },
                           { dense := some { id := [7], lat := [0], lon := [0] } }] } = 12 ∧
    ([5, 7] : List Int).getLast?.getD 0 = 7 ∧ (7 : Int) ≠ 12 :=
  ⟨by rfl, by rfl, by rfl, by decide⟩

/-- Claim C8, amended: for a block whose groups all carry DenseNodes (and
nodes not filtered out), exactly N nodes are emitted in file order, where
N is the total number of id entries over all groups; the emitted node ids
are, group by group, the prefix sums of that group's wire deltas (the
accumulators reset at each group boundary), so the id of the last node of
each group equals the sum of that group's deltas — not the sum over all
groups. -/
theorem c8_dense_only_block (blk : PrimitiveBlock) (bits : EntityBits) (out : List OsmEntity)
    (hnode : bits.node = true)
    (hdense : ∀ gr ∈ blk.primitivegroup, gr.dense.isSome)
    (h : run_primitive_block blk bits = .ok out) :
    out.length = (blk.primitivegroup.map (fun gr => (gr.dense.getD {}).id.length)).sum ∧
    node_ids out =
      (blk.primitivegroup.map (fun gr => delta_decode 0 ((gr.dense.getD {}).id))).flatten ∧
    ∀ gr ∈ blk.primitivegroup,
      ((delta_decode 0 ((gr.dense.getD {}).id)).getLast?).getD 0 =
        ((gr.dense.getD {}).id).sum := by
  obtain ⟨h1, h2⟩ := parse_groups_all_dense hnode hdense h
  exact ⟨h2, h1, fun gr _ => delta_decode_last_sum _⟩

/-- Claim C8, witness for the amended theorem at the spec's delta-chain
scenario `id = [10, 5, -3]` (one group): three nodes with ids 10, 15, 12
in order, and the last id 12 equals the group's delta sum. -/
theorem c8_dense_only_block_witness :
    ({} : EntityBits).node = true ∧
    run_primitive_block
      { stringtable := [""],
        primitivegroup :=
          [{ dense := some { id := [10, 5, -3], lat := [0, 0, 0], lon := [0, 0, 0] } }] } {} =
      .ok [.node { attrs := { id := 10 }, location := some (0, 0) },
           .node { attrs := { id := 15 }, location := some (0, 0) },
           .node { attrs := { id := 12 }, location := some (0, 0) }] ∧
    ([.node { attrs := { id := 10 }, location := some (0, 0) },
      .node { attrs := { id := 15 }, location := some (0, 0) },
      .node { attrs := { id := 12 }, location := some (0, 0) }] : List OsmEntity).length =
      (([{ dense := some { id := [10, 5, -3], lat := [0, 0, 0], lon := [0, 0, 0] } }] :
          List PrimitiveGroup).map (fun gr => (gr.dense.getD {}).id.length)).sum ∧
    node_ids [.node { attrs := { id := 10 }, location := some (0, 0) },
              .node { attrs := { id := 15 }, location := some (0, 0) },
              .node { attrs := { id := 12 }, location := some (0, 0) }] =
      (([{ dense := some { id := [10, 5, -3], lat := [0, 0, 0], lon := [0, 0, 0] } }] :
          List PrimitiveGroup).map
        (fun gr => delta_decode 0 ((gr.dense.getD {}).id))).flatten :=
  ⟨by rfl, by rfl,
   (c8_dense_only_block
     { stringtable := [""],
       primitivegroup :=
         [{ dense := some { id := [10, 5, -3], lat := [0, 0, 0], lon := [0, 0, 0] } }] } {}
     [.node { attrs := { id := 10 }, location := some (0, 0) },
      .node { attrs := { id := 15 }, location := some (0, 0) },
      .node { attrs := { id := 12 }, location := some (0, 0) }]
     (by rfl) (by decide) (by rfl)).1,
   (c8_dense_only_block
     { stringtable := [""],
       primitivegroup :=
         [{ dense := some { id := [10, 5, -3], lat := [0, 0, 0], lon := [0, 0, 0] } }] } {}
     [.node { attrs := { id := 10 }, location := some (0, 0) },
      .node { attrs := { id := 15 }, location := some (0, 0) },
      .node { attrs := { id := 12 }, location := some (0, 0) }]
     (by rfl) (by decide) (by rfl)).2.1⟩

theorem getD_set_self {α : Type} (d : α) :
    ∀ (l : List α) (q : Nat) (x : α), q < l.length → (l.set q x).getD q d = x := by
  intro l
  induction l with
  | nil => intro q x h; simp at h
  | cons y ys ih =>
    intro q x h
    cases q with
    | zero => rfl
    | succ q => exact ih q x (by simpa using h)

theorem getD_set_ne {α : Type} (d : α) :
    ∀ (l : List α) (p q : Nat) (x : α), p ≠ q → (l.set q x).getD p d = l.getD p d := by
  intro l
  induction l with
  | nil => intro p q x _; rfl
  | cons y ys ih =>
    intro p q x hpq
    cases q with
    | zero =>
      cases p with
      | zero => exact absurd rfl hpq
      | succ p => rfl
    | succ q =>
      cases p with
      | zero => rfl
      | succ p => exact ih p q x (by omega)

theorem getD_mem {α : Type} (d : α) :
    ∀ (l : List α) (q : Nat), q < l.length → l.getD q d ∈ l := by
  intro l
  induction l with
  | nil => intro q h; simp at h
  | cons y ys ih =>
    intro q h
    cases q with
    | zero => simp
    | succ q =>
      rw [List.getD_cons_succ]
      exact List.mem_cons_of_mem y (ih q (by simpa using h))

theorem get?_eq_getD {α : Type} (d : α) :
    ∀ (l : List α) (q : Nat), q < l.length → l.get? q = some (l.getD q d) := by
  intro l
  induction l with
  | nil => intro q h; simp at h
  | cons y ys ih =>
    intro q h
    cases q with
    | zero => rfl
    | succ q => exact ih q (by simpa using h)

theorem run_hits_cons_fire {L : List RelationMeta} {q : Nat} {es : List Nat}
    {m : RelationMeta} (hm : L.get? q = some m)
    (hfire : m.got_one_member.has_all_members = true) :
    run_hits L (q :: es) =
      (match run_hits (L.set q {}) es with
       | .error e => .error e
       | .ok (L2, fl) => .ok (L2, q :: fl)) := by
  simp only [run_hits, hm, hfire, if_true]

theorem run_hits_cons_nofire {L : List RelationMeta} {q : Nat} {es : List Nat}
    {m : RelationMeta} (hm : L.get? q = some m)
    (hnofire : m.got_one_member.has_all_members = false) :
    run_hits L (q :: es) = run_hits (L.set q m.got_one_member) es := by
  simp only [run_hits, hm, hnofire, Bool.false_eq_true, if_false]
  cases h : run_hits (L.set q m.got_one_member) es with
  | error e => rfl
  | ok r => rfl

theorem run_hits_fires_lt :
    ∀ (es : List Nat) (L : List RelationMeta) {L2 : List RelationMeta} {fl : List Nat},
    run_hits L es = .ok (L2, fl) → ∀ q ∈ fl, q < L.length := by
  intro es
  induction es with
  | nil =>
    intro L L2 fl h q hq
    simp only [run_hits, Except.ok.injEq, Prod.mk.injEq] at h
    obtain ⟨-, hfl⟩ := h
    subst hfl
    simp at hq
  | cons e es ih =>
    intro L L2 fl h q hq
    cases hg : L.get? e with
    | none =>
      simp only [run_hits, hg] at h
      exact Except.noConfusion h
    | some m =>
      have hlt : e < L.length := by
        have := List.get?_eq_some.mp hg
        exact this.1
      by_cases hfire : m.got_one_member.has_all_members
      · rw [run_hits_cons_fire hg hfire] at h
        cases hr : run_hits (L.set e {}) es with
        | error e2 => rw [hr] at h; exact Except.noConfusion h
        | ok r =>
          rw [hr] at h
          obtain ⟨L2x, flx⟩ := r
          simp only [Except.ok.injEq, Prod.mk.injEq] at h
          obtain ⟨h2, h3⟩ := h
          subst h2
          subst h3
          rcases List.mem_cons.mp hq with hq | hq
          · subst hq; exact hlt
          · have := ih (L.set e {}) hr q hq
            simpa using this
      · rw [run_hits_cons_nofire hg (by simpa using hfire)] at h
        have := ih (L.set e m.got_one_member) h q hq
        simpa using this

theorem run_hits_spec :
    ∀ (es : List Nat) (L : List RelationMeta),
    (∀ q ∈ es, q < L.length) → (∀ m ∈ L, SlotInv m) →
    ∃ L2 fl, run_hits L es = .ok (L2, fl) ∧
      L2.length = L.length ∧
      (∀ m ∈ L2, SlotInv m) ∧
      ∀ p, p < L.length →
        (fl.count p = if (L.getD p {}).relation_offset.isSome ∧
            (L.getD p {}).need_members ≤ (L.getD p {}).have_members + es.count p
          then 1 else 0) ∧
        ((L2.getD p {}).relation_offset.isSome ↔
          ((L.getD p {}).relation_offset.isSome ∧
           (L.getD p {}).have_members + es.count p < (L.getD p {}).need_members)) := by
  intro es
  induction es with
  | nil =>
    intro L hes hinv
    refine ⟨L, [], by simp [run_hits], rfl, hinv, ?_⟩
    intro p hp
    obtain ⟨hlive, hdead⟩ := hinv (L.getD p {}) (getD_mem {} L p hp)
    simp only [List.count_nil, Nat.add_zero]
    constructor
    · split_ifs with hc
      · obtain ⟨ho, harith⟩ := hc
        have := hlive ho
        omega
      · rfl
    · constructor
      · intro ho
        exact ⟨ho, hlive ho⟩
      · intro hc
        exact hc.1
  | cons e es ih =>
    intro L hes hinv
    have hq : e < L.length := hes e (List.mem_cons_self e es)
    have hm : L.get? e = some (L.getD e {}) := get?_eq_getD {} L e hq
    obtain ⟨hlive, hdead⟩ := hinv (L.getD e {}) (getD_mem {} L e hq)
    by_cases hfire : (L.getD e {}).got_one_member.has_all_members
    · have hf : (L.getD e {}).need_members = (L.getD e {}).have_members + 1 := by
        simpa [RelationMeta.got_one_member, RelationMeta.has_all_members] using hfire
      have hsome : (L.getD e {}).relation_offset.isSome := by
        by_contra ho
        have hnone : (L.getD e {}).relation_offset = none :=
          Option.not_isSome_iff_eq_none.mp ho
        have := hdead hnone
        omega
      have hinv1 : ∀ m ∈ L.set e {}, SlotInv m := by
        intro m hm2
        rcases List.mem_or_eq_of_mem_set hm2 with h | h
        · exact hinv m h
        · subst h
          exact ⟨fun hs => by simp at hs, fun _ => rfl⟩
      have hes1 : ∀ q ∈ es, q < (L.set e {}).length := by
        intro q hq2
        simpa using hes q (List.mem_cons_of_mem e hq2)
      obtain ⟨L2, fl, hrun, hlen, hinv2, hspec⟩ := ih (L.set e {}) hes1 hinv1
      refine ⟨L2, e :: fl, ?_, by simpa using hlen, hinv2, ?_⟩
      · rw [run_hits_cons_fire hm hfire, hrun]
      · intro p hp
        have hp1 : p < (L.set e {}).length := by simpa using hp
        obtain ⟨hcount, hiff⟩ := hspec p hp1
        by_cases hpe : p = e
        · subst hpe
          rw [getD_set_self {} L p {} hp] at hcount hiff
          simp only [show (({} : RelationMeta)).relation_offset = none from rfl,
            Option.isSome_none, Bool.false_eq_true, false_and, if_false,
            false_iff] at hcount hiff
          constructor
          · rw [List.count_cons_self, hcount, List.count_cons_self]
            rw [if_pos ⟨hsome, by omega⟩]
          · rw [List.count_cons_self]
            constructor
            · intro h2
              exact absurd (hiff.mp h2) id
            · intro hc
              omega
        · rw [getD_set_ne {} L p e {} hpe] at hcount hiff
          rw [List.count_cons_of_ne hpe, List.count_cons_of_ne hpe]
          exact ⟨hcount, hiff⟩
    · have hnf : (L.getD e {}).got_one_member.has_all_members = false :=
        Bool.eq_false_iff.mpr hfire
      have hf : (L.getD e {}).need_members ≠ (L.getD e {}).have_members + 1 := by
        simpa [RelationMeta.got_one_member, RelationMeta.has_all_members] using hnf
      have hinv1 : ∀ m ∈ L.set e (L.getD e {}).got_one_member, SlotInv m := by
        intro m hm2
        rcases List.mem_or_eq_of_mem_set hm2 with h | h
        · exact hinv m h
        · subst h
          refine ⟨fun hs => ?_, fun hnone => hdead hnone⟩
          have := hlive hs
          simp only [RelationMeta.got_one_member]
          omega
      have hes1 : ∀ q ∈ es, q < (L.set e (L.getD e {}).got_one_member).length := by
        intro q hq2
        simpa using hes q (List.mem_cons_of_mem e hq2)
      obtain ⟨L2, fl, hrun, hlen, hinv2, hspec⟩ :=
        ih (L.set e (L.getD e {}).got_one_member) hes1 hinv1
      refine ⟨L2, fl, ?_, by simpa using hlen, hinv2, ?_⟩
      · rw [run_hits_cons_nofire hm hnf, hrun]
      · intro p hp
        have hp1 : p < (L.set e (L.getD e {}).got_one_member).length := by simpa using hp
        obtain ⟨hcount, hiff⟩ := hspec p hp1
        by_cases hpe : p = e
        · subst hpe
          rw [getD_set_self (d := {}) L p _ hp] at hcount hiff
          simp only [RelationMeta.got_one_member] at hcount hiff
          constructor
          · rw [List.count_cons_self, hcount]
            refine if_congr ⟨fun hc => ⟨hc.1, by omega⟩, fun hc => ⟨hc.1, by omega⟩⟩ rfl rfl
          · rw [List.count_cons_self, hiff]
            constructor
            · intro hc
              exact ⟨hc.1, by omega⟩
            · intro hc
              exact ⟨hc.1, by omega⟩
        · rw [getD_set_ne {} L p e _ hpe] at hcount hiff
          rw [List.count_cons_of_ne hpe]
          exact ⟨hcount, hiff⟩

/-- Claim C4: in pass 2, over any sequence of member hits (each hit being
one matching `MemberMeta` entry of an incoming object, in equal-range and
file order), every slot of the initial vector — live, with `needed >= 1`
as pass 1 guarantees, and `found = 0` — fires `complete_relation` at most
once; it fires exactly when the count of found members reaches the needed
count (i.e. precisely on the slot's `needed`-th hit, so it fires iff the
run contains at least `needed` hits for that slot), and after firing the
slot is flipped to the tombstone (its recorded offset is cleared), which
has `needed = 0` and can never satisfy `found == needed` again. -/
theorem c4_complete_fires_once (L : List RelationMeta) (es : List Nat)
    (hL : ∀ m ∈ L, m.relation_offset.isSome ∧ 0 < m.need_members ∧ m.have_members = 0)
    (hes : ∀ q ∈ es, q < L.length) :
    ∃ L2 fl, run_hits L es = .ok (L2, fl) ∧
      ∀ p, p < L.length →
        fl.count p ≤ 1 ∧
        (fl.count p = 1 ↔ (L.getD p {}).need_members ≤ es.count p) ∧
        ((L2.getD p {}).relation_offset = none ↔
          (L.getD p {}).need_members ≤ es.count p) := by
  have hinv : ∀ m ∈ L, SlotInv m := by
    intro m hm
    obtain ⟨h1, h2, h3⟩ := hL m hm
    refine ⟨fun _ => by omega, fun hnone => ?_⟩
    rw [hnone] at h1
    simp at h1
  obtain ⟨L2, fl, hrun, hlen, hinv2, hspec⟩ := run_hits_spec es L hes hinv
  refine ⟨L2, fl, hrun, fun p hp => ?_⟩
  obtain ⟨hcount, hiff⟩ := hspec p hp
  obtain ⟨ho, hneed, hhave⟩ := hL (L.getD p {}) (getD_mem {} L p hp)
  rw [hhave] at hcount hiff
  simp only [Nat.zero_add] at hcount hiff
  refine ⟨?_, ?_, ?_⟩
  · rw [hcount]
    split_ifs <;> omega
  · rw [hcount]
    by_cases hc : (L.getD p {}).need_members ≤ es.count p
    · rw [if_pos ⟨ho, hc⟩]
      exact ⟨fun _ => hc, fun _ => rfl⟩
    · rw [if_neg (fun hand => hc hand.2)]
      exact ⟨fun h0 => absurd h0 (by decide), fun hcc => absurd hcc hc⟩
  · simp only [ho, true_and] at hiff
    rw [← Option.not_isSome_iff_eq_none, hiff]
    exact not_lt

/-- Claim C4, witness: two live slots needing 2 and 1 members, hit
sequence `[0, 1, 0]`; slot 0 fires on its second hit, slot 1 on its
first, each exactly once, and both end tombstoned. -/
theorem c4_complete_fires_once_witness :
    (∀ m ∈ ([{ relation_offset := some 0, need_members := 2, have_members := 0 },
             { relation_offset := some 3, need_members := 1, have_members := 0 }] :
            List RelationMeta),
       m.relation_offset.isSome ∧ 0 < m.need_members ∧ m.have_members = 0) ∧
    (∀ q ∈ ([0, 1, 0] : List Nat),
       q < ([{ relation_offset := some 0, need_members := 2, have_members := 0 },
             { relation_offset := some 3, need_members := 1, have_members := 0 }] :
            List RelationMeta).length) ∧
    (∃ L2 fl,
      run_hits [{ relation_offset := some 0, need_members := 2, have_members := 0 },
                { relation_offset := some 3, need_members := 1, have_members := 0 }]
        [0, 1, 0] = .ok (L2, fl) ∧
      ∀ p, p < ([{ relation_offset := some 0, need_members := 2, have_members := 0 },
                 { relation_offset := some 3, need_members := 1, have_members := 0 }] :
                List RelationMeta).length →
        fl.count p ≤ 1 ∧
        (fl.count p = 1 ↔
          (([{ relation_offset := some 0, need_members := 2, have_members := 0 },
             { relation_offset := some 3, need_members := 1, have_members := 0 }] :
            List RelationMeta).getD p {}).need_members ≤ ([0, 1, 0] : List Nat).count p) ∧
        ((L2.getD p {}).relation_offset = none ↔
          (([{ relation_offset := some 0, need_members := 2, have_members := 0 },
             { relation_offset := some 3, need_members := 1, have_members := 0 }] :
            List RelationMeta).getD p {}).need_members ≤ ([0, 1, 0] : List Nat).count p)) :=
  ⟨by decide, by decide,
   c4_complete_fires_once
     [{ relation_offset := some 0, need_members := 2, have_members := 0 },
      { relation_offset := some 3, need_members := 1, have_members := 0 }]
     [0, 1, 0] (by decide) (by decide)⟩

theorem add_relation_loop_all_filtered {keep : RelationMeta → CMember → Bool}
    {slotIdx : Nat} :
    ∀ (ms : List CMember) (n : Nat) (meta : RelationMeta),
    (∀ m ∈ ms, ∀ meta2, keep meta2 m = false) →
    add_relation_loop keep slotIdx ms n meta =
      (meta, ms.map (fun m => { m with ref := 0 }), []) := by
  intro ms
  induction ms with
  | nil => intro n meta _; rfl
  | cons m ms ih =>
    intro n meta h
    have hk : keep meta m = false := h m (by simp) meta
    simp only [add_relation_loop, hk, Bool.false_eq_true, if_false]
    rw [ih (n + 1) meta (fun q hq meta2 => h q (by simp [hq]) meta2)]
    rfl

/-- Claim C9: when every member of a kept relation is rejected by
`keep_member` (so `needed` stays 0 and the fresh meta already
`has_all_members()`), `add_relation` rolls the relation-store write back:
the relations buffer (committed watermark included), the slot vector and
the member-meta index are all left exactly as before, and — since the
relation received no slot — no pass-2 run over the resulting collector
can ever emit it to `complete_relation` (every fire names a pre-existing
slot index). -/
theorem c9_rollback_when_no_member_kept (keep : RelationMeta → CMember → Bool)
    (st0 : CollectorState) (rel : StoredRelation)
    (hpend : st0.relations_buffer.pending = [])
    (hfiltered : ∀ m ∈ rel.members, ∀ meta, keep meta m = false) :
    add_relation keep st0 rel = st0 ∧
    (add_relation keep st0 rel).relations_buffer.watermark =
      st0.relations_buffer.watermark ∧
    (add_relation keep st0 rel).slots = st0.slots ∧
    ∀ es L2 fl, run_hits (add_relation keep st0 rel).slots es = .ok (L2, fl) →
      ∀ q ∈ fl, q < st0.slots.length := by
  have hmain : add_relation keep st0 rel = st0 := by
    unfold add_relation
    dsimp only
    rw [add_relation_loop_all_filtered rel.members 0 _ hfiltered]
    rcases st0 with ⟨⟨comm, pend⟩, mb, slots, mm, fires⟩
    simp only at hpend
    subst hpend
    rfl
  refine ⟨hmain, by rw [hmain], by rw [hmain], ?_⟩
  intro es L2 fl hrun q hq
  rw [hmain] at hrun
  exact run_hits_fires_lt es st0.slots hrun q hq

/-- Claim C9, witness: a collector in its initial state, a `keep_member`
rejecting everything, and a relation with one way member: `add_relation`
leaves the state unchanged. -/
theorem c9_rollback_witness :
    ({} : CollectorState).relations_buffer.pending = [] ∧
    add_relation (fun _ _ => false) {} { id := 9, members := [{ typ := 1, ref := 7 }] } =
      ({} : CollectorState) :=
  ⟨rfl,
   (c9_rollback_when_no_member_kept (fun _ _ => false) {}
     { id := 9, members := [{ typ := 1, ref := 7 }] } rfl
     (fun _ _ _ => rfl)).1⟩

end Osmium
